import Mathlib

/-! # gojira: verification development

A shallow embedding of the Go package `gojira` (`jira.go`, `users.go`) and the properties
checked against it.

Conventions of the embedding.

* Go `int` is `Int`; where the 64-bit range matters it appears as an explicit bound.
* Go `string` is `String` where only its text matters (URLs, identifiers, timestamps) and
  `List UInt8` where its bytes matter (the comment handed to `json.Marshal`); a `[]byte` is
  `List UInt8`.
* A pointer is an `Option`; dereferencing `none` is the runtime fault `Fault.nilDeref`.
* A Go result pair `(v, err)` is a Lean pair `(v, Option Error)`, so that the value returned
  next to a non-nil error stays visible.
* Calls into the Go standard library that the package does not implement itself are either
  modelled concretely (`float64` arithmetic, `make`, `url.QueryEscape`, `time.Parse`,
  `json.Marshal` of a string map) or taken from the environment (`Lib`: `json.Unmarshal`,
  `xml.Unmarshal`, the validation done by `http.NewRequest` and the memory the allocator can
  provide; `Jira.Client`: the HTTP round trip).
* Every endpoint returns, next to its Go results, the list of requests it handed to
  `Client.Do`, in order.
-/

namespace Gojira

/-! ## Runtime outcomes -/

/-- Run-time panics the package can raise. -/
inductive Fault where
  | nilDeref
  | makeSliceLen
deriving DecidableEq, Repr

/-- Outcome of running a function body: normal return, a run-time panic, the fatal error
`runtime: out of memory` that ends the process when the allocator cannot provide the memory
asked for, or a point where the Go specification leaves the value implementation-dependent
(conversion to `int` of a float that `int` cannot represent). -/
inductive Run (α : Type) where
  | ret (a : α)
  | panic (f : Fault)
  | outOfMemory
  | implDependent
deriving DecidableEq, Repr

/-- A Go `error` value. -/
structure Error where
  msg : String
deriving DecidableEq, Repr

/-! ## float64 arithmetic used by `Pagination.Compute`

Finite values are `(-1)^neg * m * 2^e`. Rounding is to nearest, ties to even, with a
53 bit significand. The operands of the package are conversions of 64-bit ints, whose
quotients stay far inside the normal exponent range, so overflow to infinity and gradual
underflow of a quotient are not modelled. -/

inductive F64 where
  | nan : F64
  | inf (neg : Bool) : F64
  | fin (neg : Bool) (m : Nat) (e : Int) : F64
deriving DecidableEq, Repr

def bitLenAux : Nat → Nat → Nat
  | 0, _ => 0
  | fuel + 1, n => if n = 0 then 0 else bitLenAux fuel (n / 2) + 1

/-- Number of binary digits of `n`. -/
def bitLen (n : Nat) : Nat := bitLenAux n n

def scaleNum (n : Nat) (e : Int) : Nat := n * 2 ^ (-e).toNat

def scaleDen (d : Nat) (e : Int) : Nat := d * 2 ^ e.toNat

/-- The exponent `e` with `2^52 ≤ (n / d) / 2^e < 2^53`. -/
def roundExp (n d : Nat) : Int :=
  let e0 : Int := (bitLen n : Int) - (bitLen d : Int) - 52
  if 2 ^ 52 * scaleDen d e0 ≤ scaleNum n e0 then e0 else e0 - 1

/-- Nearest integer to `N / D`, ties to the even one. -/
def roundHalfEven (N D : Nat) : Nat :=
  if D < 2 * (N % D) ∨ (2 * (N % D) = D ∧ (N / D) % 2 = 1) then N / D + 1 else N / D

/-- Significand and exponent of the float64 nearest to `n / d`, for positive `n` and `d`. -/
def roundRatio (n d : Nat) : Nat × Int :=
  let e := roundExp n d
  (roundHalfEven (scaleNum n e) (scaleDen d e), e)

/-- Conversion `float64(n)` of an int. -/
def F64.ofInt (n : Int) : F64 :=
  if n = 0 then F64.fin false 0 0
  else F64.fin (decide (n < 0)) (roundRatio n.natAbs 1).1 (roundRatio n.natAbs 1).2

/-- Division `a / b` of float64 values (IEEE 754: no panic on a zero divisor). -/
def F64.div : F64 → F64 → F64
  | F64.nan, _ => F64.nan
  | _, F64.nan => F64.nan
  | F64.inf _, F64.inf _ => F64.nan
  | F64.inf s, F64.fin t _ _ => F64.inf (xor s t)
  | F64.fin s _ _, F64.inf t => F64.fin (xor s t) 0 0
  | F64.fin s ma ea, F64.fin t mb eb =>
    if mb = 0 then (if ma = 0 then F64.nan else F64.inf (xor s t))
    else if ma = 0 then F64.fin (xor s t) 0 0
    else
      F64.fin (xor s t)
        (roundRatio (scaleNum ma (eb - ea)) (scaleDen mb (eb - ea))).1
        (roundRatio (scaleNum ma (eb - ea)) (scaleDen mb (eb - ea))).2

/-- The function `math.Ceil`. -/
def F64.ceil : F64 → F64
  | F64.nan => F64.nan
  | F64.inf s => F64.inf s
  | F64.fin s m e =>
    if 0 ≤ e then F64.fin s m e
    else if s then F64.fin true (m / 2 ^ (-e).toNat) 0
    else F64.fin false ((m + 2 ^ (-e).toNat - 1) / 2 ^ (-e).toNat) 0

/-- Conversion `int(x)`: truncation toward zero when the result fits in 64 bits; otherwise
(also for NaN and the infinities) the Go specification leaves the value
implementation-dependent, rendered as `none`. -/
def F64.toInt : F64 → Option Int
  | F64.nan => none
  | F64.inf _ => none
  | F64.fin s m e =>
    let mag : Nat := m * 2 ^ e.toNat / 2 ^ (-e).toNat
    let v : Int := if s then -(mag : Int) else (mag : Int)
    if -2 ^ 63 ≤ v ∧ v < 2 ^ 63 then some v else none

/-! ## Pagination -/

structure Pagination where
  Total : Int
  StartAt : Int
  MaxResults : Int
  Page : Int
  PageCount : Int
  Pages : List Int
deriving DecidableEq, Repr

/-- Largest heap object the runtime allocates on 64-bit platforms (linux/amd64), in bytes. -/
def maxAlloc : Int := 2 ^ 48

/-- The built-in `make([]int, n)` when the allocator can still provide `heapBytes` bytes: it
panics for a negative length or one whose 8-byte elements exceed `maxAlloc`, dies with
out of memory when the elements exceed what the allocator can provide, and otherwise returns
`n` zeros. -/
def makeInts (heapBytes : Nat) (n : Int) : Run (List Int) :=
  if n < 0 ∨ maxAlloc < 8 * n then Run.panic Fault.makeSliceLen
  else if (heapBytes : Int) < 8 * n then Run.outOfMemory
  else Run.ret (List.replicate n.toNat 0)

/-- The loop `for i := range pages { pages[i] = i }`. -/
def fillIndices (pages : List Int) : List Int :=
  (List.range pages.length).foldl (fun a i => a.set i (i : Int)) pages

/-- The method `Compute`, run while the allocator can still provide `heapBytes` bytes. -/
def Pagination.Compute (p : Pagination) (heapBytes : Nat) : Run Pagination :=
  match F64.toInt (F64.ceil (F64.div (F64.ofInt p.Total) (F64.ofInt p.MaxResults))) with
  | none => Run.implDependent
  | some pageCount =>
    match F64.toInt (F64.ceil (F64.div (F64.ofInt p.StartAt) (F64.ofInt p.MaxResults))) with
    | none => Run.implDependent
    | some page =>
      match makeInts heapBytes pageCount with
      | Run.panic f => Run.panic f
      | Run.outOfMemory => Run.outOfMemory
      | Run.implDependent => Run.implDependent
      | Run.ret pages =>
        Run.ret { p with PageCount := pageCount, Page := page, Pages := fillIndices pages }

/-! ## Data model -/

/-- A `time.Time`: seconds and nanoseconds since 0001-01-01 00:00:00 UTC and the offset of
its zone in seconds east of UTC. -/
structure Time where
  sec : Int
  nsec : Nat
  offset : Int
deriving DecidableEq, Repr

/-- The zero value `time.Time{}`. -/
def Time.zero : Time := ⟨0, 0, 0⟩

structure Auth where
  Login : String
  Password : String
deriving DecidableEq, Repr

structure User where
  Self : String
  Name : String
  EmailAddress : String
  DisplayName : String
  Active : Bool
  TimeZone : String
  AvatarUrls : List (String × String)
  Expand : String
deriving DecidableEq, Repr

structure IssueType where
  Self : String
  Id : String
  Description : String
  IconUrl : String
  Name : String
  Subtask : Bool
deriving DecidableEq, Repr

structure JiraProject where
  Self : String
  Id : String
  Key : String
  Name : String
  AvatarUrls : List (String × String)
deriving DecidableEq, Repr

structure IssueFields where
  IssueType : Option IssueType
  Summary : String
  Description : String
  Reporter : Option User
  Assignee : Option User
  Project : Option JiraProject
  Created : String
deriving DecidableEq, Repr

structure Issue where
  Id : String
  Key : String
  Self : String
  Expand : String
  Fields : Option IssueFields
  CreatedAt : Time
deriving DecidableEq, Repr

structure IssueList where
  Expand : String
  StartAt : Int
  MaxResults : Int
  Total : Int
  Issues : List (Option Issue)
  Pagination : Option Pagination
deriving DecidableEq, Repr

structure Category where
  Term : String
deriving DecidableEq, Repr

structure Link where
  Rel : String
  Href : String
deriving DecidableEq, Repr

structure Person where
  Name : String
  URI : String
  Email : String
  InnerXML : String
deriving DecidableEq, Repr

structure Text where
  Type_ : String
  Body : String
deriving DecidableEq, Repr

structure ActivityItem where
  Title : String
  Id : String
  Link : List Link
  Updated : Time
  Author : Person
  Summary : Text
  Category : Category
deriving DecidableEq, Repr

structure ActivityFeed where
  XMLName : String × String
  Title : String
  Id : String
  Link : List Link
  Updated : Time
  Author : Person
  Entries : List (Option ActivityItem)
deriving DecidableEq, Repr

/-- Zero value of `Issue`. -/
def Issue.zero : Issue := ⟨"", "", "", "", none, Time.zero⟩

/-- Zero value of `IssueList`. -/
def IssueList.zero : IssueList := ⟨"", 0, 0, 0, [], none⟩

/-- Zero value of `User`, what `new(User)` points to. -/
def User.zero : User := ⟨"", "", "", "", false, "", [], ""⟩

/-- Zero value of `ActivityFeed`. -/
def ActivityFeed.zero : ActivityFeed :=
  ⟨("", ""), "", "", [], Time.zero, ⟨"", "", "", ""⟩, []⟩

/-! ## HTTP layer -/

/-- What the package puts into an `http.Request`; the body is given by its bytes. -/
structure Request where
  Method : String
  URL : String
  Body : Option (List UInt8)
  Header : List (String × String)
  BasicAuth : Option (String × String)
deriving DecidableEq, Repr

/-- The client. `Client` stands for the calls into `net/http` and `ioutil` that carry a
request out (`Client.Do`, then `ioutil.ReadAll` on the response body): it maps the request
to the bytes read, or to the error either of them reports. `Auth` is the pointee of the
`*Auth` field of a client built with credentials. -/
structure Jira where
  BaseUrl : String
  ApiPath : String
  ActivityPath : String
  Client : Request → Except Error (List UInt8)
  Auth : Auth

def NewJira (client : Request → Except Error (List UInt8)) (baseUrl apiPath activityPath : String)
    (auth : Auth) : Jira :=
  { BaseUrl := baseUrl, ApiPath := apiPath, ActivityPath := activityPath,
    Client := client, Auth := auth }

def dateLayout : String := "2006-01-02T15:04:05.000-0700"

def user_uri : String := "/user"

def user_search_uri : String := "/user/search"

/-! ## The environment of a call -/

/-- The parts of the standard library and of the process that are not modelled concretely.
An unmarshal function receives the bytes and the value its target points to, and returns the
value left in the target together with the error, as `json.Unmarshal(contents, &v)` does.
`httpNewRequest method uri` is the error `http.NewRequest` reports for a method and a URL it
rejects, `none` when it builds the request. `heapBytes` is the number of bytes the allocator
can still provide. -/
structure Lib where
  jsonUnmarshalIssue : List UInt8 → Issue → Issue × Option Error
  jsonUnmarshalIssueList : List UInt8 → IssueList → IssueList × Option Error
  jsonUnmarshalUser : List UInt8 → Option User → Option User × Option Error
  xmlUnmarshalFeed : List UInt8 → ActivityFeed → ActivityFeed × Option Error
  httpNewRequest : String → String → Option Error
  heapBytes : Nat

/-- The call `http.NewRequest(method, uri, body)`. -/
def NewRequest (lib : Lib) (method uri : String) (body : Option (List UInt8)) :
    Except Error Request :=
  match lib.httpNewRequest method uri with
  | some err => Except.error err
  | none => Except.ok { Method := method, URL := uri, Body := body, Header := [], BasicAuth := none }

/-- The method `Header.Set`. -/
def Request.setHeader (req : Request) (key value : String) : Request :=
  { req with Header := (key, value) :: req.Header.filter (fun kv => kv.1 ≠ key) }

/-- The method `Request.SetBasicAuth`. -/
def Request.SetBasicAuth (req : Request) (login password : String) : Request :=
  { req with BasicAuth := some (login, password) }

/-- One round trip: the bytes read or the error, and the request handed to `Client.Do`. -/
def Jira.execRequest (j : Jira) (req : Request) : Except Error (List UInt8) × List Request :=
  (j.Client (req.SetBasicAuth j.Auth.Login j.Auth.Password),
    [req.SetBasicAuth j.Auth.Login j.Auth.Password])

def Jira.getRequest (lib : Lib) (j : Jira) (uri : String) :
    Except Error (List UInt8) × List Request :=
  match NewRequest lib "GET" uri none with
  | Except.error err => (Except.error err, [])
  | Except.ok req => j.execRequest req

def Jira.postJson (lib : Lib) (j : Jira) (uri : String) (body : List UInt8) :
    Except Error (List UInt8) × List Request :=
  match NewRequest lib "POST" uri (some body) with
  | Except.error err => (Except.error err, [])
  | Except.ok req => j.execRequest (req.setHeader "Content-Type" "application/json")

/-! ## time.Parse

The layout is cut into its elements as `nextStdChunk` does, and the value is read element by
element as `parse` does. Elements that `dateLayout` does not use (names of months and days,
two-digit years, 12-hour clocks, zone names, other zone forms) are recognised in the layout
and reported as `Std.other`, on which the model gives an error: such layouts are outside it.
A successful parse consumes ASCII characters only, so reading the value by characters agrees
with reading it by bytes. The result carries the instant and the offset; whether `time.Parse`
attaches the local zone or a fixed zone of that offset is not modelled. -/

/-- Layout elements. -/
inductive Std where
  | longYear
  | zeroMonth
  | zeroDay
  | hour
  | zeroMinute
  | zeroSecond
  | fracSecond0 (digits : Nat)
  | fracSecond9 (digits : Nat)
  | numTZ
  | other
deriving DecidableEq, Repr

/-- The rest of `l` after the leading `p`, when `l` starts with `p`. -/
def stripLeading : List Char → List Char → Option (List Char)
  | [], l => some l
  | _ :: _, [] => none
  | p :: ps, c :: cs => if p = c then stripLeading ps cs else none

def isDigit (c : Char) : Bool := 48 ≤ c.toNat && c.toNat ≤ 57

def digit (c : Char) : Nat := c.toNat - 48

def startsWithLowerCase : List Char → Bool
  | [] => false
  | c :: _ => 97 ≤ c.toNat && c.toNat ≤ 122

def startsWithDigit : List Char → Bool
  | [] => false
  | c :: _ => isDigit c

/-- The element that starts with the character `c` followed by `rest`, if one does: a
literal text that goes with it, the element, and the layout after it. -/
def stdAt (c : Char) (rest : List Char) : Option (List Char × Std × List Char) :=
  if c = 'J' then
    match stripLeading ['a', 'n'] rest with
    | none => none
    | some r3 =>
      match stripLeading ['u', 'a', 'r', 'y'] r3 with
      | some r7 => some ([], Std.other, r7)
      | none => if startsWithLowerCase r3 then none else some ([], Std.other, r3)
  else if c = 'M' then
    match stripLeading ['o', 'n'] rest with
    | some r3 =>
      match stripLeading ['d', 'a', 'y'] r3 with
      | some r6 => some ([], Std.other, r6)
      | none => if startsWithLowerCase r3 then none else some ([], Std.other, r3)
    | none =>
      match stripLeading ['S', 'T'] rest with
      | some r3 => some ([], Std.other, r3)
      | none => none
  else if c = '0' then
    match rest with
    | d :: r2 =>
      if d = '1' then some ([], Std.zeroMonth, r2)
      else if d = '2' then some ([], Std.zeroDay, r2)
      else if d = '3' then some ([], Std.other, r2)
      else if d = '4' then some ([], Std.zeroMinute, r2)
      else if d = '5' then some ([], Std.zeroSecond, r2)
      else if d = '6' then some ([], Std.other, r2)
      else
        match stripLeading ['0', '2'] rest with
        | some r3 => some ([], Std.other, r3)
        | none => none
    | [] => none
  else if c = '1' then
    match stripLeading ['5'] rest with
    | some r2 => some ([], Std.hour, r2)
    | none => some ([], Std.other, rest)
  else if c = '2' then
    match stripLeading ['0', '0', '6'] rest with
    | some r4 => some ([], Std.longYear, r4)
    | none => some ([], Std.other, rest)
  else if c = '_' then
    match stripLeading ['2'] rest with
    | some r2 =>
      match stripLeading ['0', '0', '6'] r2 with
      | some r5 => some (['_'], Std.longYear, r5)
      | none => some ([], Std.other, r2)
    | none =>
      match stripLeading ['_', '2'] rest with
      | some r3 => some ([], Std.other, r3)
      | none => none
  else if c = '3' ∨ c = '4' ∨ c = '5' then some ([], Std.other, rest)
  else if c = 'P' then
    match stripLeading ['M'] rest with
    | some r2 => some ([], Std.other, r2)
    | none => none
  else if c = 'p' then
    match stripLeading ['m'] rest with
    | some r2 => some ([], Std.other, r2)
    | none => none
  else if c = '-' then
    match stripLeading ['0', '7', '0', '0', '0', '0'] rest with
    | some r => some ([], Std.other, r)
    | none =>
      match stripLeading ['0', '7', ':', '0', '0', ':', '0', '0'] rest with
      | some r => some ([], Std.other, r)
      | none =>
        match stripLeading ['0', '7', '0', '0'] rest with
        | some r => some ([], Std.numTZ, r)
        | none =>
          match stripLeading ['0', '7', ':', '0', '0'] rest with
          | some r => some ([], Std.other, r)
          | none =>
            match stripLeading ['0', '7'] rest with
            | some r => some ([], Std.other, r)
            | none => none
  else if c = 'Z' then
    match stripLeading ['0', '7'] rest with
    | some r3 =>
      match stripLeading ['0', '0', '0', '0'] r3 with
      | some r => some ([], Std.other, r)
      | none =>
        match stripLeading [':', '0', '0', ':', '0', '0'] r3 with
        | some r => some ([], Std.other, r)
        | none =>
          match stripLeading ['0', '0'] r3 with
          | some r => some ([], Std.other, r)
          | none =>
            match stripLeading [':', '0', '0'] r3 with
            | some r => some ([], Std.other, r)
            | none => some ([], Std.other, r3)
    | none => none
  else if c = '.' ∨ c = ',' then
    match rest with
    | d :: _ =>
      if d = '0' ∨ d = '9' then
        if startsWithDigit (rest.dropWhile (fun x => x = d)) then none
        else
          some ([], (if d = '0' then Std.fracSecond0 (rest.takeWhile (fun x => x = d)).length
                     else Std.fracSecond9 (rest.takeWhile (fun x => x = d)).length),
            rest.dropWhile (fun x => x = d))
      else none
    | [] => none
  else none

/-- The function `nextStdChunk`: the literal text before the next element of the layout,
and that element with the layout after it, if there is one. -/
def nextStdChunk : List Char → List Char × Option (Std × List Char)
  | [] => ([], none)
  | c :: rest =>
    match stdAt c rest with
    | some (lit, std, suffix) => (lit, some (std, suffix))
    | none =>
      match nextStdChunk rest with
      | (lit, next) => (c :: lit, next)

def layoutChunksAux : Nat → List Char → List (List Char × Std) × List Char
  | 0, layout => ([], layout)
  | fuel + 1, layout =>
    match nextStdChunk layout with
    | (lit, none) => ([], lit)
    | (lit, some (std, suffix)) =>
      match layoutChunksAux fuel suffix with
      | (chunks, tail) => ((lit, std) :: chunks, tail)

/-- The layout as its elements, each with the literal text before it, and the literal text
after the last element (`nextStdChunk` repeated; every element takes at least one character,
so the length of the layout is fuel enough). -/
def layoutChunks (layout : List Char) : List (List Char × Std) × List Char :=
  layoutChunksAux (layout.length + 1) layout

def cutspace (s : List Char) : List Char := s.dropWhile (fun c => c = ' ')

def skipAux : Nat → List Char → List Char → Option (List Char)
  | 0, _, _ => none
  | fuel + 1, value, lit =>
    match lit with
    | [] => some value
    | p :: ps =>
      if p = ' ' then
        match value with
        | v :: _ => if v ≠ ' ' then none else skipAux fuel (cutspace value) (cutspace lit)
        | [] => skipAux fuel (cutspace value) (cutspace lit)
      else
        match value with
        | v :: vs => if v = p then skipAux fuel vs ps else none
        | [] => none

/-- The function `skip`: the value after the literal text `lit`, which it must start with. -/
def skip (value lit : List Char) : Option (List Char) := skipAux (lit.length + 1) value lit

/-- The function `getnum`: one or two leading digits, exactly two when `fixed`. -/
def getnum (fixed : Bool) : List Char → Option (Nat × List Char)
  | [] => none
  | a :: rest =>
    if isDigit a then
      match rest with
      | [] => if fixed then none else some (digit a, [])
      | b :: rest2 =>
        if isDigit b then some (digit a * 10 + digit b, rest2)
        else if fixed then none
        else some (digit a, rest)
    else none

def digitsValue : List Char → Nat → Option Nat
  | [], acc => some acc
  | c :: rest, acc => if isDigit c then digitsValue rest (acc * 10 + digit c) else none

/-- The function `atoi` on the short texts `parse` hands it (at most nine characters, so that
its overflow check never applies): an optional sign and digits only. -/
def atoi : List Char → Option Int
  | [] => some 0
  | c :: rest =>
    if c = '-' then (digitsValue rest 0).map (fun n => -(n : Int))
    else if c = '+' then (digitsValue rest 0).map (fun n => (n : Int))
    else (digitsValue (c :: rest) 0).map (fun n => (n : Int))

def commaOrPeriod (c : Char) : Bool := c = '.' || c = ','

/-- The function `parseNanoseconds` on the first `nbytes` characters of `value`. -/
def parseNanoseconds (value : List Char) (nbytes : Nat) : Option Nat :=
  match value with
  | [] => none
  | sep :: _ =>
    if commaOrPeriod sep then
      match atoi ((value.take (min nbytes 10)).drop 1) with
      | none => none
      | some ns => if ns < 0 then none else some (ns.toNat * 10 ^ (10 - min nbytes 10))
    else none

/-- The time being constructed by `parse`. -/
structure ParseState where
  year : Int
  month : Int
  day : Int
  hour : Nat
  min : Nat
  sec : Nat
  nsec : Nat
  zoneOffset : Int
deriving DecidableEq, Repr

def ParseState.init : ParseState := ⟨0, -1, -1, 0, 0, 0, 0, -1⟩

def isFrac : Std → Bool
  | Std.fracSecond0 _ => true
  | Std.fracSecond9 _ => true
  | _ => false

def nextIsFrac : List (List Char × Std) → Bool
  | [] => false
  | (_, std) :: _ => isFrac std

/-- One element read off the value: the state after it and the rest of the value; `none`
for a malformed or out-of-range value. `later` are the elements that follow in the layout. -/
def parseStd (std : Std) (later : List (List Char × Std)) (value : List Char) (st : ParseState) :
    Option (ParseState × List Char) :=
  match std with
  | Std.longYear =>
    match value with
    | a :: _ :: _ :: _ :: _ =>
      if isDigit a then
        match atoi (value.take 4) with
        | some y => some ({ st with year := y }, value.drop 4)
        | none => none
      else none
    | _ => none
  | Std.zeroMonth =>
    match getnum true value with
    | some (m, rest) => if m = 0 ∨ 12 < m then none else some ({ st with month := (m : Int) }, rest)
    | none => none
  | Std.zeroDay =>
    match getnum true value with
    | some (d, rest) => some ({ st with day := (d : Int) }, rest)
    | none => none
  | Std.hour =>
    match getnum false value with
    | some (h, rest) => if 24 ≤ h then none else some ({ st with hour := h }, rest)
    | none => none
  | Std.zeroMinute =>
    match getnum true value with
    | some (m, rest) => if 60 ≤ m then none else some ({ st with min := m }, rest)
    | none => none
  | Std.zeroSecond =>
    match getnum true value with
    | none => none
    | some (s, rest) =>
      if 60 ≤ s then none
      else
        match rest with
        | sep :: d :: _ =>
          if commaOrPeriod sep && isDigit d && !nextIsFrac later then
            -- a fraction in the value that the layout does not ask for
            match parseNanoseconds rest (1 + ((rest.drop 1).takeWhile isDigit).length) with
            | some ns =>
              some ({ st with sec := s, nsec := ns },
                rest.drop (1 + ((rest.drop 1).takeWhile isDigit).length))
            | none => none
          else some ({ st with sec := s }, rest)
        | _ => some ({ st with sec := s }, rest)
  | Std.fracSecond0 digits =>
    if value.length < 1 + digits then none
    else
      match parseNanoseconds value (1 + digits) with
      | some ns => some ({ st with nsec := ns }, value.drop (1 + digits))
      | none => none
  | Std.fracSecond9 _ =>
    match value with
    | sep :: d :: _ =>
      if commaOrPeriod sep && isDigit d then
        match parseNanoseconds value (1 + ((value.drop 1).takeWhile isDigit).length) with
        | some ns =>
          some ({ st with nsec := ns }, value.drop (1 + ((value.drop 1).takeWhile isDigit).length))
        | none => none
      else some (st, value)
    | _ => some (st, value)
  | Std.numTZ =>
    match value with
    | sign :: h1 :: h2 :: m1 :: m2 :: rest =>
      match getnum true [h1, h2], getnum true [m1, m2] with
      | some (hr, _), some (mm, _) =>
        if 24 < hr ∨ 60 < mm then none
        else if sign = '+' then
          some ({ st with zoneOffset := (((hr * 60 + mm) * 60 : Nat) : Int) }, rest)
        else if sign = '-' then
          some ({ st with zoneOffset := -(((hr * 60 + mm) * 60 : Nat) : Int) }, rest)
        else none
      | _, _ => none
    | _ => none
  | Std.other => none

/-- The loop of `parse` over the elements of the layout. -/
def parseChunks : List (List Char × Std) → List Char → List Char → ParseState → Option ParseState
  | [], tail, value, st =>
    match skip value tail with
    | some [] => some st
    | _ => none
  | (lit, std) :: later, tail, value, st =>
    match skip value lit with
    | none => none
    | some value1 =>
      match parseStd std later value1 st with
      | none => none
      | some (st1, value2) => parseChunks later tail value2 st1

def isLeap (year : Int) : Bool := year % 4 = 0 && (year % 100 ≠ 0 || year % 400 = 0)

def daysIn (month : Int) (year : Int) : Int :=
  if month = 2 then (if isLeap year then 29 else 28)
  else if month = 4 ∨ month = 6 ∨ month = 9 ∨ month = 11 then 30
  else 31

def daysBefore (month : Int) : Int :=
  ([0, 31, 59, 90, 120, 151, 181, 212, 243, 273, 304, 334] : List Int).getD (month - 1).toNat 0

/-- Days from 0001-01-01 to the given date of the proleptic Gregorian calendar. -/
def daysSinceYearOne (year month day : Int) : Int :=
  365 * (year - 1) + (year - 1) / 4 - (year - 1) / 100 + (year - 1) / 400
    + daysBefore month + (if isLeap year ∧ 2 < month then 1 else 0) + day - 1

/-- The end of `parse`: month and day default to January 1, the day is checked against the
month, and the instant is the civil time less the zone offset. -/
def finishParse (st : ParseState) : Option Time :=
  let month := if st.month < 0 then 1 else st.month
  let day := if st.day < 0 then 1 else st.day
  if day < 1 ∨ daysIn month st.year < day then none
  else
    let civil := daysSinceYearOne st.year month day * 86400
      + ((st.hour * 3600 + st.min * 60 + st.sec : Nat) : Int)
    if st.zoneOffset ≠ -1 then some ⟨civil - st.zoneOffset, st.nsec, st.zoneOffset⟩
    else some ⟨civil, st.nsec, 0⟩

/-- The function `time.Parse`; next to every error it returns the zero `Time`. Of an error
only its presence is modelled: the message names the value, not the element that failed. -/
def timeParse (layout value : String) : Except Error Time :=
  match parseChunks (layoutChunks layout.data).1 (layoutChunks layout.data).2 value.data
      ParseState.init with
  | none => Except.error ⟨"parsing time " ++ value ++ " as " ++ layout⟩
  | some st =>
    match finishParse st with
    | none => Except.error ⟨"parsing time " ++ value ++ ": day out of range"⟩
    | some t => Except.ok t

/-- The call `time.Parse(dateLayout, value)`. -/
def parseDateLayout (value : String) : Except Error Time := timeParse dateLayout value

/-- The statement `t, _ := time.Parse(layout, value)`. -/
def parseIgnoringError (layout value : String) : Time :=
  match timeParse layout value with
  | Except.ok t => t
  | Except.error _ => Time.zero

/-! ## url.QueryEscape -/

def upperHex (n : Nat) : Char :=
  if n < 10 then Char.ofNat (48 + n) else Char.ofNat (55 + n)

/-- Bytes left as they are in a query component: letters, digits, `-`, `_`, `.`, `~`. -/
def unreserved (b : UInt8) : Bool :=
  (97 ≤ b && b ≤ 122) || (65 ≤ b && b ≤ 90) || (48 ≤ b && b ≤ 57)
    || b == 45 || b == 95 || b == 46 || b == 126

def escapeByte (b : UInt8) : List Char :=
  if b = 32 then ['+']
  else if unreserved b then [Char.ofNat b.toNat]
  else ['%', upperHex (b.toNat / 16), upperHex (b.toNat % 16)]

def utf8Bytes (s : String) : List UInt8 := s.data.flatMap String.utf8EncodeChar

def QueryEscape (s : String) : String := String.mk ((utf8Bytes s).flatMap escapeByte)

/-- The function `strconv.Itoa`. -/
def Itoa (n : Int) : String := toString n

/-! ## UTF-8 (package unicode/utf8) -/

/-- The function `utf8.DecodeRune`: the rune at the head of the bytes and its width;
`(0xFFFD, 1)` for an ill-formed sequence and `(0xFFFD, 0)` for no bytes. -/
def decodeRune : List UInt8 → Nat × Nat
  | [] => (65533, 0)
  | b0 :: rest =>
    if b0.toNat < 128 then (b0.toNat, 1)
    else if 194 ≤ b0.toNat ∧ b0.toNat ≤ 223 then
      match rest with
      | b1 :: _ =>
        if 128 ≤ b1.toNat ∧ b1.toNat ≤ 191 then
          ((b0.toNat - 192) * 64 + (b1.toNat - 128), 2)
        else (65533, 1)
      | [] => (65533, 1)
    else if 224 ≤ b0.toNat ∧ b0.toNat ≤ 239 then
      match rest with
      | b1 :: b2 :: _ =>
        if (if b0.toNat = 224 then 160 else 128) ≤ b1.toNat
            ∧ b1.toNat ≤ (if b0.toNat = 237 then 159 else 191)
            ∧ 128 ≤ b2.toNat ∧ b2.toNat ≤ 191 then
          (((b0.toNat - 224) * 64 + (b1.toNat - 128)) * 64 + (b2.toNat - 128), 3)
        else (65533, 1)
      | _ => (65533, 1)
    else if 240 ≤ b0.toNat ∧ b0.toNat ≤ 244 then
      match rest with
      | b1 :: b2 :: b3 :: _ =>
        if (if b0.toNat = 240 then 144 else 128) ≤ b1.toNat
            ∧ b1.toNat ≤ (if b0.toNat = 244 then 143 else 191)
            ∧ 128 ≤ b2.toNat ∧ b2.toNat ≤ 191 ∧ 128 ≤ b3.toNat ∧ b3.toNat ≤ 191 then
          ((((b0.toNat - 240) * 64 + (b1.toNat - 128)) * 64 + (b2.toNat - 128)) * 64
            + (b3.toNat - 128), 4)
        else (65533, 1)
      | _ => (65533, 1)
    else (65533, 1)

/-- The function `utf8.EncodeRune`; a surrogate half or a value beyond U+10FFFF is written
as U+FFFD. -/
def encodeRune (r : Nat) : List UInt8 :=
  if r < 128 then [UInt8.ofNat r]
  else if r < 2048 then [UInt8.ofNat (192 + r / 64), UInt8.ofNat (128 + r % 64)]
  else if (55296 ≤ r ∧ r < 57344) ∨ 1114111 < r then [239, 191, 189]
  else if r < 65536 then
    [UInt8.ofNat (224 + r / 4096), UInt8.ofNat (128 + r / 64 % 64), UInt8.ofNat (128 + r % 64)]
  else
    [UInt8.ofNat (240 + r / 262144), UInt8.ofNat (128 + r / 4096 % 64),
      UInt8.ofNat (128 + r / 64 % 64), UInt8.ofNat (128 + r % 64)]

def validUTF8Aux : Nat → List UInt8 → Bool
  | 0, bs => bs.isEmpty
  | fuel + 1, bs =>
    match bs with
    | [] => true
    | _ :: rest =>
      if (decodeRune bs).1 = 65533 ∧ (decodeRune bs).2 = 1 then false
      else validUTF8Aux fuel (rest.drop ((decodeRune bs).2 - 1))

/-- The function `utf8.Valid`: every rune of the bytes is well formed. -/
def validUTF8 (bs : List UInt8) : Bool := validUTF8Aux bs.length bs

/-! ## json.Marshal of a `map[string]string` -/

def lowerHexByte (n : Nat) : UInt8 :=
  if n < 10 then UInt8.ofNat (48 + n) else UInt8.ofNat (87 + n)

/-- A byte below 0x80 inside a JSON string, as the encoder writes it (HTML escaping on). -/
def escapeASCII (b : UInt8) : List UInt8 :=
  if b.toNat = 34 ∨ b.toNat = 92 then [92, b]
  else if b.toNat = 8 then [92, 98]
  else if b.toNat = 12 then [92, 102]
  else if b.toNat = 10 then [92, 110]
  else if b.toNat = 13 then [92, 114]
  else if b.toNat = 9 then [92, 116]
  else if b.toNat < 32 ∨ b.toNat = 60 ∨ b.toNat = 62 ∨ b.toNat = 38 then
    [92, 117, 48, 48, lowerHexByte (b.toNat / 16), lowerHexByte (b.toNat % 16)]
  else [b]

/-- The loop of the encoder over the bytes of a string: an ill-formed byte is written as the
escape of U+FFFD, the separators U+2028 and U+2029 as their escapes, every other rune as its
bytes. One unit of fuel per rune. -/
def appendStringAux : Nat → List UInt8 → List UInt8
  | 0, _ => []
  | fuel + 1, bs =>
    match bs with
    | [] => []
    | b :: rest =>
      if b.toNat < 128 then escapeASCII b ++ appendStringAux fuel rest
      else if (decodeRune bs).1 = 65533 ∧ (decodeRune bs).2 = 1 then
        [92, 117, 102, 102, 102, 100] ++ appendStringAux fuel rest
      else if (decodeRune bs).1 = 8232 ∨ (decodeRune bs).1 = 8233 then
        [92, 117, 50, 48, 50, lowerHexByte ((decodeRune bs).1 % 16)]
          ++ appendStringAux fuel (rest.drop ((decodeRune bs).2 - 1))
      else bs.take (decodeRune bs).2 ++ appendStringAux fuel (rest.drop ((decodeRune bs).2 - 1))

/-- A Go string as a JSON string literal. -/
def encodeJSONString (s : List UInt8) : List UInt8 :=
  34 :: (appendStringAux s.length s ++ [34])

def encodeMembers : List (List UInt8 × List UInt8) → List UInt8
  | [] => []
  | [kv] => encodeJSONString kv.1 ++ 58 :: encodeJSONString kv.2
  | kv :: rest => encodeJSONString kv.1 ++ 58 :: encodeJSONString kv.2 ++ 44 :: encodeMembers rest

/-- The call `json.Marshal(m)` for a `map[string]string`, given as its entries in key order.
For this type Marshal reports no error. -/
def jsonMarshalStringMap (m : List (List UInt8 × List UInt8)) : Except Error (List UInt8) :=
  Except.ok (123 :: (encodeMembers m ++ [125]))

/-! ## Endpoints -/

def Jira.UserActivity_uri (j : Jira) (user : String) : String :=
  j.BaseUrl ++ j.ActivityPath ++ "?streams=" ++ QueryEscape ("user IS " ++ user)

def Jira.Activity (lib : Lib) (j : Jira) (uri : String) :
    (ActivityFeed × Option Error) × List Request :=
  match j.getRequest lib uri with
  | (Except.error err, sent) => ((ActivityFeed.zero, some err), sent)
  | (Except.ok contents, sent) =>
    match lib.xmlUnmarshalFeed contents ActivityFeed.zero with
    | (_, some err) => ((ActivityFeed.zero, some err), sent)
    | (activity, none) => ((activity, none), sent)

def Jira.UserActivity (lib : Lib) (j : Jira) (user : String) :
    (ActivityFeed × Option Error) × List Request :=
  Jira.Activity lib j (j.UserActivity_uri user)

def Jira.IssuesAssignedTo_uri (j : Jira) (user : String) (maxResults startAt : Int) : String :=
  j.BaseUrl ++ j.ApiPath ++ "/search?jql=assignee=\"" ++ QueryEscape user ++ "\"&startAt="
    ++ Itoa startAt ++ "&maxResults=" ++ Itoa maxResults

/-- One iteration of the loop over `issues.Issues`: reading `issue.Fields.Created` panics
when `issue` or `issue.Fields` is nil. -/
def stampCreated : Option Issue → Option (Option Issue)
  | none => none
  | some issue =>
    match issue.Fields with
    | none => none
    | some fields =>
      some (some { issue with CreatedAt := parseIgnoringError dateLayout fields.Created })

/-- The loop over `issues.Issues`; `none` when an iteration panics. -/
def stampAll : List (Option Issue) → Option (List (Option Issue))
  | [] => some []
  | issue :: rest =>
    match stampCreated issue with
    | none => none
    | some stamped =>
      match stampAll rest with
      | none => none
      | some others => some (stamped :: others)

def Jira.IssuesAssignedTo (lib : Lib) (j : Jira) (user : String) (maxResults startAt : Int) :
    Run (IssueList × Option Error) × List Request :=
  match j.getRequest lib (j.IssuesAssignedTo_uri user maxResults startAt) with
  | (Except.error err, sent) => (Run.ret (IssueList.zero, some err), sent)
  | (Except.ok contents, sent) =>
    match lib.jsonUnmarshalIssueList contents IssueList.zero with
    | (_, some err) => (Run.ret (IssueList.zero, some err), sent)
    | (issues, none) =>
      match stampAll issues.Issues with
      | none => (Run.panic Fault.nilDeref, sent)
      | some stamped =>
        let pagination : Pagination :=
          ⟨issues.Total, issues.StartAt, issues.MaxResults, 0, 0, []⟩
        match pagination.Compute lib.heapBytes with
        | Run.panic f => (Run.panic f, sent)
        | Run.outOfMemory => (Run.outOfMemory, sent)
        | Run.implDependent => (Run.implDependent, sent)
        | Run.ret computed =>
          (Run.ret ({ issues with Issues := stamped, Pagination := some computed }, none), sent)

def Jira.AddComment_uri (j : Jira) (issue : Issue) : String :=
  j.BaseUrl ++ j.ApiPath ++ "/issue/" ++ issue.Key ++ "/comment"

/-- The method `AddComment`; the comment is a Go string, given by its bytes. -/
def Jira.AddComment (lib : Lib) (j : Jira) (issue : Issue) (comment : List UInt8) :
    Option Error × List Request :=
  match jsonMarshalStringMap [(utf8Bytes "body", comment)] with
  | Except.error err => (some err, [])
  | Except.ok cJson =>
    match j.postJson lib (j.AddComment_uri issue) cJson with
    | (Except.error err, sent) => (some err, sent)
    | (Except.ok _, sent) => (none, sent)

def Jira.SearchUser_uri (j : Jira) (username : String) : String :=
  j.BaseUrl ++ j.ApiPath ++ user_uri ++ "?username=" ++ username

def Jira.SearchUser (lib : Lib) (j : Jira) (username : String) (_startAt _maxResults : Int)
    (_includeActive _includeInactive : Bool) :
    (Option (List UInt8) × Option Error) × List Request :=
  match j.getRequest lib (j.SearchUser_uri username) with
  | (Except.error err, sent) => ((none, some err), sent)
  | (Except.ok contents, sent) => ((some contents, none), sent)

def Jira.Issue_uri (j : Jira) (id : String) : String :=
  j.BaseUrl ++ j.ApiPath ++ "/issue/" ++ id

def Jira.Issue (lib : Lib) (j : Jira) (id : String) : (Issue × Option Error) × List Request :=
  match j.getRequest lib (j.Issue_uri id) with
  | (Except.error err, sent) => ((Issue.zero, some err), sent)
  | (Except.ok contents, sent) =>
    match lib.jsonUnmarshalIssue contents Issue.zero with
    | (_, some err) => ((Issue.zero, some err), sent)
    | (issue, none) => ((issue, none), sent)

def Jira.User_uri (j : Jira) (username : String) : String :=
  j.BaseUrl ++ j.ApiPath ++ user_uri ++ "?username=" ++ username

def Jira.User (lib : Lib) (j : Jira) (username : String) :
    (Option User × Option Error) × List Request :=
  match j.getRequest lib (j.User_uri username) with
  | (Except.error err, sent) => ((none, some err), sent)
  | (Except.ok contents, sent) =>
    match lib.jsonUnmarshalUser contents (some User.zero) with
    | (_, some err) => ((none, some err), sent)
    | (user, none) => ((user, none), sent)

/-! ## Observers used to state the properties

These read back what the package has built: the path and the query parameters of a URL,
the JSON text of a request body, and the shape of a timestamp. -/

/-- The part of a URL before its query string. -/
def urlPath (uri : String) : String := String.mk (uri.data.takeWhile (fun c => c ≠ '?'))

def splitOnChar (sep : Char) : List Char → List (List Char)
  | [] => [[]]
  | c :: rest =>
    if c = sep then [] :: splitOnChar sep rest
    else
      match splitOnChar sep rest with
      | [] => [[c]]
      | h :: t => (c :: h) :: t

def hexValue (c : Char) : Option Nat :=
  if 48 ≤ c.toNat ∧ c.toNat ≤ 57 then some (c.toNat - 48)
  else if 97 ≤ c.toNat ∧ c.toNat ≤ 102 then some (c.toNat - 87)
  else if 65 ≤ c.toNat ∧ c.toNat ≤ 70 then some (c.toNat - 55)
  else none

/-- Percent-decoding of a query value into bytes (`+` is a space). -/
def percentDecode : List Char → Option (List UInt8)
  | [] => some []
  | c :: rest =>
    if c = '%' then
      match rest with
      | a :: b :: rest2 =>
        match hexValue a, hexValue b, percentDecode rest2 with
        | some x, some y, some bytes => some (UInt8.ofNat (x * 16 + y) :: bytes)
        | _, _, _ => none
      | _ => none
    else
      match percentDecode rest with
      | none => none
      | some bytes => some ((if c = '+' then [32] else String.utf8EncodeChar c) ++ bytes)

/-- The decoded value of query parameter `name`: the query string is split on `&`, each
piece on its first `=`, and the value of the first piece named `name` is percent-decoded. -/
def queryParam (uri name : String) : Option (List UInt8) :=
  let query := (uri.data.dropWhile (fun c => c ≠ '?')).drop 1
  match (splitOnChar '&' query).find? (fun p => p.takeWhile (fun c => c ≠ '=') = name.data) with
  | none => none
  | some p => percentDecode ((p.dropWhile (fun c => c ≠ '=')).drop 1)

def hexByteValue (b : UInt8) : Option Nat :=
  if 48 ≤ b.toNat ∧ b.toNat ≤ 57 then some (b.toNat - 48)
  else if 97 ≤ b.toNat ∧ b.toNat ≤ 102 then some (b.toNat - 87)
  else if 65 ≤ b.toNat ∧ b.toNat ≤ 70 then some (b.toNat - 55)
  else none

/-- Four hexadecimal digits at the head of the bytes: their value and the bytes after. -/
def hex4 : List UInt8 → Option (Nat × List UInt8)
  | h1 :: h2 :: h3 :: h4 :: rest =>
    match hexByteValue h1, hexByteValue h2, hexByteValue h3, hexByteValue h4 with
    | some x1, some x2, some x3, some x4 => some (((x1 * 16 + x2) * 16 + x3) * 16 + x4, rest)
    | _, _, _, _ => none
  | _ => none

/-- The byte a two-character escape stands for. -/
def simpleEscape (e : UInt8) : Option UInt8 :=
  if e.toNat = 34 then some 34
  else if e.toNat = 92 then some 92
  else if e.toNat = 47 then some 47
  else if e.toNat = 98 then some 8
  else if e.toNat = 102 then some 12
  else if e.toNat = 110 then some 10
  else if e.toNat = 114 then some 13
  else if e.toNat = 116 then some 9
  else none

/-- The rune of a `\u` escape with value `r`, looking at the bytes after it for the low half
of a surrogate pair: the rune and the bytes left. A half without its partner is U+FFFD. -/
def escapedRune (r : Nat) (rest : List UInt8) : Nat × List UInt8 :=
  if 55296 ≤ r ∧ r < 57344 then
    match rest with
    | b :: u :: rest1 =>
      if b.toNat = 92 ∧ u.toNat = 117 then
        match hex4 rest1 with
        | some (r1, rest2) =>
          if r < 56320 ∧ 56320 ≤ r1 ∧ r1 < 57344 then
            ((r - 55296) * 1024 + (r1 - 56320) + 65536, rest2)
          else (65533, rest)
        | none => (65533, rest)
      else (65533, rest)
    | _ => (65533, rest)
  else (r, rest)

/-- Decoding of the bytes of a JSON string literal after its opening quote: the decoded
bytes and what follows the closing quote. Escapes are resolved, ill-formed UTF-8 is coerced
to U+FFFD, a raw control byte is an error. One unit of fuel per rune. -/
def unquoteAux : Nat → List UInt8 → Option (List UInt8 × List UInt8)
  | 0, _ => none
  | fuel + 1, bs =>
    match bs with
    | [] => none
    | c :: rest =>
      if c.toNat = 34 then some ([], rest)
      else if c.toNat = 92 then
        match rest with
        | [] => none
        | e :: rest1 =>
          if e.toNat = 117 then
            match hex4 rest1 with
            | none => none
            | some (r, rest2) =>
              match unquoteAux fuel (escapedRune r rest2).2 with
              | none => none
              | some (s, after) => some (encodeRune (escapedRune r rest2).1 ++ s, after)
          else
            match simpleEscape e, unquoteAux fuel rest1 with
            | some b, some (s, after) => some (b :: s, after)
            | _, _ => none
      else if c.toNat < 32 then none
      else if c.toNat < 128 then
        match unquoteAux fuel rest with
        | some (s, after) => some (c :: s, after)
        | none => none
      else
        match unquoteAux fuel (rest.drop ((decodeRune bs).2 - 1)) with
        | some (s, after) => some (encodeRune (decodeRune bs).1 ++ s, after)
        | none => none

/-- A JSON string literal at the head of the bytes: its decoded bytes and the bytes after. -/
def decodeJSONString : List UInt8 → Option (List UInt8 × List UInt8)
  | [] => none
  | c :: rest => if c.toNat = 34 then unquoteAux (rest.length + 1) rest else none

/-- Decoding of a JSON text that is an object with exactly one member whose value is a
string: the member name and the decoded value, both as bytes. -/
def decodeSingleMember (body : List UInt8) : Option (List UInt8 × List UInt8) :=
  match body with
  | [] => none
  | c :: rest =>
    if c.toNat = 123 then
      match decodeJSONString rest with
      | none => none
      | some (key, afterKey) =>
        match afterKey with
        | [] => none
        | colon :: afterColon =>
          if colon.toNat = 58 then
            match decodeJSONString afterColon with
            | some (value, [close]) => if close.toNat = 125 then some (key, value) else none
            | _ => none
          else none
    else none

/-- A timestamp by its fields, as the format YYYY-MM-DDThh:mm:ss.sss±hhmm writes them. -/
structure Stamp where
  year : Nat
  month : Nat
  day : Nat
  hour : Nat
  min : Nat
  sec : Nat
  millis : Nat
  west : Bool
  zoneHour : Nat
  zoneMin : Nat
deriving DecidableEq, Repr

def digitChar (n : Nat) : Char := Char.ofNat (48 + n % 10)

def twoDigits (n : Nat) : List Char := [digitChar (n / 10), digitChar n]

/-- The text YYYY-MM-DDThh:mm:ss.sss±hhmm of a timestamp. -/
def Stamp.render (s : Stamp) : String :=
  String.mk
    ([digitChar (s.year / 1000), digitChar (s.year / 100), digitChar (s.year / 10),
        digitChar s.year, '-'] ++ twoDigits s.month ++ ['-'] ++ twoDigits s.day ++ ['T']
      ++ twoDigits s.hour ++ [':'] ++ twoDigits s.min ++ [':'] ++ twoDigits s.sec
      ++ ['.', digitChar (s.millis / 100), digitChar (s.millis / 10), digitChar s.millis,
          (if s.west then '-' else '+')] ++ twoDigits s.zoneHour ++ twoDigits s.zoneMin)

/-- The fields denote a date of the calendar, a time of day and a zone offset. -/
def Stamp.valid (s : Stamp) : Prop :=
  s.year < 10000 ∧ 1 ≤ s.month ∧ s.month ≤ 12 ∧ 1 ≤ s.day
    ∧ (s.day : Int) ≤ daysIn (s.month : Int) (s.year : Int)
    ∧ s.hour < 24 ∧ s.min < 60 ∧ s.sec < 60 ∧ s.millis < 1000
    ∧ s.zoneHour ≤ 24 ∧ s.zoneMin ≤ 60

/-- Seconds east of UTC of the zone of a timestamp. -/
def Stamp.offset (s : Stamp) : Int :=
  if s.west then -(((s.zoneHour * 60 + s.zoneMin) * 60 : Nat) : Int)
  else (((s.zoneHour * 60 + s.zoneMin) * 60 : Nat) : Int)

/-- The instant and the offset a timestamp denotes. -/
def Stamp.time (s : Stamp) : Time :=
  { sec := daysSinceYearOne (s.year : Int) (s.month : Int) (s.day : Int) * 86400
            + ((s.hour * 3600 + s.min * 60 + s.sec : Nat) : Int) - s.offset,
    nsec := s.millis * 1000000,
    offset := s.offset }

/-- The text has the shape YYYY-MM-DDThh:mm:ss.sss±hhmm: digits, and the separators in
their places. -/
def hasStampShape (value : String) : Bool :=
  match value.data with
  | [y1, y2, y3, y4, d1, m1, m2, d2, a1, a2, t, h1, h2, c1, n1, n2, c2, s1, s2, p, f1, f2, f3,
      sg, z1, z2, z3, z4] =>
    [y1, y2, y3, y4, m1, m2, a1, a2, h1, h2, n1, n2, s1, s2, f1, f2, f3, z1, z2, z3, z4].all isDigit
      && d1 = '-' && d2 = '-' && t = 'T' && c1 = ':' && c2 = ':' && p = '.'
      && (sg = '+' || sg = '-')
  | _ => false

/-! ## Fixtures -/

/-- An environment whose decoders leave the given values in their targets, whatever the
bytes, whose `http.NewRequest` accepts every URL, and whose allocator can provide one
mebibyte. -/
def Lib.fixture (issue : Issue × Option Error) (issues : IssueList × Option Error)
    (user : Option User × Option Error) : Lib :=
  { jsonUnmarshalIssue := fun _ _ => issue,
    jsonUnmarshalIssueList := fun _ _ => issues,
    jsonUnmarshalUser := fun _ _ => user,
    xmlUnmarshalFeed := fun _ feed => (feed, none),
    httpNewRequest := fun _ _ => none,
    heapBytes := 1048576 }

/-- The check of `url.Parse` on which `http.NewRequest` fails for a URL that holds an ASCII
control character. -/
def rejectControl (_method uri : String) : Option Error :=
  if uri.data.any (fun c => c.toNat < 32 || c.toNat = 127) then
    some ⟨"net/url: invalid control character in URL"⟩
  else none

/-- A client whose transport answers every request with the given outcome. -/
def Jira.fixture (answer : Except Error (List UInt8)) : Jira :=
  NewJira (fun _ => answer) "http://jira.example" "/rest/api/2" "/activity" ⟨"login", "secret"⟩

/-! ## float64 rounding and the exact ceiling -/

theorem bitLenAux_zero (fuel : Nat) : bitLenAux fuel 0 = 0 := by
  cases fuel <;> simp [bitLenAux]

theorem bitLenAux_bounds (fuel : Nat) : ∀ n, n ≤ fuel →
    n < 2 ^ bitLenAux fuel n ∧ (0 < n → 2 ^ bitLenAux fuel n ≤ 2 * n) := by
  induction fuel with
  | zero =>
    intro n hn
    have : n = 0 := by omega
    subst this
    simp [bitLenAux]
  | succ f ih =>
    intro n hn
    by_cases h0 : n = 0
    · subst h0; simp [bitLenAux]
    · have hle : n / 2 ≤ f := by omega
      obtain ⟨h1, h2⟩ := ih (n / 2) hle
      simp only [bitLenAux, h0, if_false, pow_succ]
      constructor
      · omega
      · intro _
        by_cases hh : n / 2 = 0
        · have : n = 1 := by omega
          subst this
          simp [bitLenAux_zero]
        · have := h2 (by omega)
          omega

theorem bitLen_lt (n : Nat) : n < 2 ^ bitLen n := (bitLenAux_bounds n n le_rfl).1

theorem bitLen_le (n : Nat) (h : 0 < n) : 2 ^ bitLen n ≤ 2 * n := (bitLenAux_bounds n n le_rfl).2 h

theorem scale_ratio (n d : Nat) (e : Int) :
    ((scaleNum n e : Nat) : ℚ) / ((scaleDen d e : Nat) : ℚ) = (n : ℚ) / d * (2 : ℚ) ^ (-e) := by
  unfold scaleNum scaleDen
  rcases le_total 0 e with h | h
  · obtain ⟨k, rfl⟩ := Int.eq_ofNat_of_zero_le h
    have h1 : (-(k : Int)).toNat = 0 := by omega
    rw [h1, zpow_neg, zpow_natCast]
    push_cast
    simp only [Int.toNat_ofNat]
    field_simp
  · obtain ⟨k, hk⟩ := Int.eq_ofNat_of_zero_le (show 0 ≤ -e by omega)
    have h1 : e.toNat = 0 := by omega
    rw [h1, hk, zpow_natCast]
    push_cast
    simp only [Int.toNat_ofNat]
    field_simp

theorem scaleDen_pos (d : Nat) (e : Int) (hd : 0 < d) : 0 < scaleDen d e := by
  unfold scaleDen
  positivity

theorem roundRatio_exp_ok (n d : Nat) (hn : 0 < n) (hd : 0 < d) :
    (2 : ℚ) ^ 52 ≤ (n : ℚ) / d * (2 : ℚ) ^ (-(roundRatio n d).2) := by
  show (2 : ℚ) ^ 52 ≤ (n : ℚ) / d * (2 : ℚ) ^ (-(roundExp n d))
  unfold roundExp
  simp only
  split
  · next h =>
    rw [← scale_ratio]
    have hD : (0 : ℚ) < (scaleDen d ((bitLen n : Int) - (bitLen d : Int) - 52) : ℚ) := by
      exact_mod_cast scaleDen_pos d _ hd
    rw [le_div_iff₀ hD]
    exact_mod_cast h
  · have h1 : ((2 : ℚ) ^ bitLen n) ≤ 2 * (n : ℚ) := by exact_mod_cast bitLen_le n hn
    have h2 : (d : ℚ) ≤ (2 : ℚ) ^ bitLen d := by exact_mod_cast (bitLen_lt d).le
    have hdq : (0 : ℚ) < d := by exact_mod_cast hd
    have hnq : (0 : ℚ) < n := by exact_mod_cast hn
    have hA : (0 : ℚ) < (2 : ℚ) ^ bitLen n := by positivity
    have hB : (0 : ℚ) < (2 : ℚ) ^ bitLen d := by positivity
    have he : (-((bitLen n : Int) - (bitLen d : Int) - 52 - 1)) = (53 : Int) + (bitLen d : Int) - (bitLen n : Int) := by
      ring
    rw [he, zpow_sub₀ (by norm_num), zpow_add₀ (by norm_num), zpow_natCast, zpow_natCast]
    have key : (2 : ℚ) ^ 52 * ((d : ℚ) * (2 : ℚ) ^ bitLen n) ≤ (n : ℚ) * ((2 : ℚ) ^ (53 : ℤ) * (2 : ℚ) ^ bitLen d) := by
      have := mul_le_mul h1 h2 hdq.le (by linarith : (0 : ℚ) ≤ 2 * n)
      norm_num
      linarith
    rw [show (n : ℚ) / d * ((2 : ℚ) ^ (53 : ℤ) * (2 : ℚ) ^ bitLen d / (2 : ℚ) ^ bitLen n)
          = (n : ℚ) * ((2 : ℚ) ^ (53 : ℤ) * (2 : ℚ) ^ bitLen d) / ((d : ℚ) * (2 : ℚ) ^ bitLen n) by
        field_simp]
    rw [le_div_iff₀ (by positivity)]
    exact key

theorem round_core (N D : Nat) (hD : 0 < D) :
    |((roundHalfEven N D : Nat) : ℚ) - (N : ℚ) / D| ≤ 1 / 2
    ∧ ∀ z : ℕ, (N : ℚ) / D = z → roundHalfEven N D = z := by
  unfold roundHalfEven
  have hDq : (0 : ℚ) < D := by exact_mod_cast hD
  have hdiv : (N : ℚ) = D * ((N / D : Nat) : ℚ) + ((N % D : Nat) : ℚ) := by
    exact_mod_cast (Nat.div_add_mod N D).symm
  have hy : (N : ℚ) / D = ((N / D : Nat) : ℚ) + ((N % D : Nat) : ℚ) / D := by
    rw [hdiv]; field_simp; ring
  have hr : N % D < D := Nat.mod_lt _ hD
  have hr0 : (0 : ℚ) ≤ ((N % D : Nat) : ℚ) / D := by positivity
  have hr1 : ((N % D : Nat) : ℚ) / D < 1 := by
    rw [div_lt_one hDq]; exact_mod_cast hr
  constructor
  · split
    · next h =>
      have h2 : D ≤ 2 * (N % D) := by omega
      have h3 : (1 : ℚ) / 2 ≤ ((N % D : Nat) : ℚ) / D := by
        rw [le_div_iff₀ hDq]
        have : (D : ℚ) ≤ 2 * ((N % D : Nat) : ℚ) := by exact_mod_cast h2
        linarith
      rw [hy, abs_le]
      push_cast
      constructor <;> linarith
    · next h =>
      have h2 : 2 * (N % D) ≤ D := by omega
      have h3 : ((N % D : Nat) : ℚ) / D ≤ 1 / 2 := by
        rw [div_le_iff₀ hDq]
        have : 2 * ((N % D : Nat) : ℚ) ≤ (D : ℚ) := by exact_mod_cast h2
        linarith
      rw [hy, abs_le]
      constructor <;> linarith
  · intro z hz
    have hN : N = z * D := by
      have : (N : ℚ) = z * D := by
        rw [div_eq_iff hDq.ne.symm] at hz; exact hz
      exact_mod_cast this
    have hm : N % D = 0 := by rw [hN]; exact Nat.mul_mod_left z D
    have hq : N / D = z := by rw [hN]; exact Nat.mul_div_cancel z hD
    rw [hm, hq]
    have : ¬ (D < 2 * 0 ∨ (2 * 0 = D ∧ z % 2 = 1)) := by omega
    rw [if_neg this]

theorem roundRatio_spec (n d : Nat) (hn : 0 < n) (hd : 0 < d) :
    (2 : ℚ) ^ 52 ≤ (n : ℚ) / d * (2 : ℚ) ^ (-(roundRatio n d).2)
    ∧ |((roundRatio n d).1 : ℚ) - (n : ℚ) / d * (2 : ℚ) ^ (-(roundRatio n d).2)| ≤ 1 / 2
    ∧ ∀ z : ℕ, (n : ℚ) / d * (2 : ℚ) ^ (-(roundRatio n d).2) = z → (roundRatio n d).1 = z := by
  refine ⟨roundRatio_exp_ok n d hn hd, ?_, ?_⟩
  · show |((roundHalfEven (scaleNum n (roundExp n d)) (scaleDen d (roundExp n d)) : Nat) : ℚ)
        - (n : ℚ) / d * (2 : ℚ) ^ (-(roundExp n d))| ≤ 1 / 2
    rw [← scale_ratio]
    exact (round_core _ _ (scaleDen_pos d _ hd)).1
  · intro z hz
    change (n : ℚ) / d * (2 : ℚ) ^ (-(roundExp n d)) = z at hz
    rw [← scale_ratio] at hz
    exact (round_core _ _ (scaleDen_pos d _ hd)).2 z hz

theorem zpow_neg_toNat (e : Int) (h : e ≤ 0) : (2 : ℚ) ^ (-e) = ((2 ^ (-e).toNat : Nat) : ℚ) := by
  obtain ⟨k, hk⟩ := Int.eq_ofNat_of_zero_le (show 0 ≤ -e by omega)
  rw [hk, zpow_natCast]
  simp

theorem zpow_of_nonpos (e : Int) (h : e ≤ 0) : (2 : ℚ) ^ e = 1 / ((2 ^ (-e).toNat : Nat) : ℚ) := by
  rw [← zpow_neg_toNat e h, zpow_neg]
  simp

theorem exp_nonpos_of_half_lt (e : Int) (h : (1 : ℚ) / 2 < (2 : ℚ) ^ (-e)) : e ≤ 0 := by
  by_contra hc
  have h1 : -e ≤ -1 := by omega
  have h2 : (2 : ℚ) ^ (-e) ≤ (2 : ℚ) ^ (-1 : ℤ) := zpow_le_zpow_right₀ (by norm_num) h1
  have h3 : (2 : ℚ) ^ (-1 : ℤ) = 1 / 2 := by norm_num
  rw [h3] at h2
  linarith

/-- Core accuracy fact: when the exact quotient is T / M with T below 2^53, the rounded
quotient lies in the same unit interval between integers as the exact one. -/
theorem roundRatio_same_cell (n d T M : Nat) (hn : 0 < n) (hd : 0 < d) (hT : 0 < T)
    (hT53 : T < 2 ^ 53) (hM : 0 < M) (hq : (n : ℚ) / d = (T : ℚ) / M) :
    (roundRatio n d).2 ≤ 0 ∧
    ⌈((roundRatio n d).1 : ℚ) * (2 : ℚ) ^ (roundRatio n d).2⌉ = ⌈(T : ℚ) / M⌉ ∧
    ⌊((roundRatio n d).1 : ℚ) * (2 : ℚ) ^ (roundRatio n d).2⌋ = ⌊(T : ℚ) / M⌋ := by
  obtain ⟨h1, h2, h3⟩ := roundRatio_spec n d hn hd
  generalize (roundRatio n d).1 = m at *
  generalize (roundRatio n d).2 = e at *
  rw [hq] at h1 h2 h3
  have hMq : (0 : ℚ) < M := by exact_mod_cast hM
  have hTq : (0 : ℚ) < T := by exact_mod_cast hT
  have hT53q : (T : ℚ) < 2 ^ 53 := by exact_mod_cast hT53
  have hpos : (0 : ℚ) < (2 : ℚ) ^ (-e) := by positivity
  -- 2 * 2^(-e) > M
  have hbig : (M : ℚ) < 2 * (2 : ℚ) ^ (-e) := by
    by_contra hc
    push_neg at hc
    have : (T : ℚ) / M * (2 : ℚ) ^ (-e) < 2 ^ 52 := by
      rw [div_mul_eq_mul_div, div_lt_iff₀ hMq]
      have := mul_lt_mul_of_pos_right hT53q hpos
      linarith
    linarith
  have hM1 : (1 : ℚ) ≤ M := by exact_mod_cast hM
  have he : e ≤ 0 := exp_nonpos_of_half_lt e (by linarith)
  refine ⟨he, ?_⟩
  have hP : (2 : ℚ) ^ (-e) = ((2 ^ (-e).toNat : Nat) : ℚ) := zpow_neg_toNat e he
  have hP' : (2 : ℚ) ^ e = 1 / ((2 ^ (-e).toNat : Nat) : ℚ) := zpow_of_nonpos e he
  generalize 2 ^ (-e).toNat = P at hP hP'
  have hPpos : (0 : ℚ) < (P : ℚ) := by rw [← hP]; exact hpos
  rw [hP] at h1 h2 h3 hbig
  rw [hP']
  -- split T = c * M + r
  have hdm : T = M * (T / M) + T % M := (Nat.div_add_mod T M).symm
  have hdmq : (T : ℚ) = M * ((T / M : Nat) : ℚ) + ((T % M : Nat) : ℚ) := by exact_mod_cast hdm
  have hrlt : T % M < M := Nat.mod_lt _ hM
  generalize T / M = c at hdm hdmq
  generalize T % M = r at hdm hdmq hrlt
  have hrltq : (r : ℚ) < M := by exact_mod_cast hrlt
  have hqeq : (T : ℚ) / M = c + (r : ℚ) / M := by
    rw [hdmq]; field_simp; ring
  by_cases hr0 : r = 0
  · -- exact case
    have hqc : (T : ℚ) / M = c := by rw [hqeq, hr0]; simp
    have hm : m = c * P := by
      apply h3
      rw [hqc]; push_cast; ring
    have hX : (m : ℚ) * (1 / (P : ℚ)) = c := by
      rw [hm]; push_cast; field_simp
    rw [hX, hqc]
    exact ⟨rfl, rfl⟩
  · have hr1 : (1 : ℚ) ≤ r := by
      have : 1 ≤ r := by omega
      exact_mod_cast this
    have hy : (T : ℚ) / M * P = c * P + r * P / M := by
      rw [hqeq]; field_simp; ring
    rw [hy, abs_le] at h2
    -- r * P / M > 1/2 and (M - r) * P / M > 1/2
    have ha : (1 : ℚ) / 2 < r * P / M := by
      rw [lt_div_iff₀ hMq]
      have := mul_le_mul_of_nonneg_right hr1 hPpos.le
      linarith
    have hb : (r : ℚ) * P / M < P - 1 / 2 := by
      rw [div_lt_iff₀ hMq]
      have : (1 : ℚ) ≤ M - r := by
        have : r + 1 ≤ M := by omega
        have : ((r + 1 : Nat) : ℚ) ≤ M := by exact_mod_cast this
        push_cast at this; linarith
      have := mul_le_mul_of_nonneg_right this hPpos.le
      linarith
    have hlo : (c : ℚ) * P < m := by linarith [h2.1]
    have hhi : (m : ℚ) < (c + 1) * P := by linarith [h2.2]
    have hXlo : (c : ℚ) < (m : ℚ) * (1 / (P : ℚ)) := by
      rw [mul_one_div, lt_div_iff₀ hPpos]; exact hlo
    have hXhi : (m : ℚ) * (1 / (P : ℚ)) < c + 1 := by
      rw [mul_one_div, div_lt_iff₀ hPpos]; exact hhi
    have hqlo : (c : ℚ) < (T : ℚ) / M := by
      rw [hqeq]
      have : (0 : ℚ) < r / M := by positivity
      linarith
    have hqhi : (T : ℚ) / M < c + 1 := by
      rw [hqeq]
      have : (r : ℚ) / M < 1 := by rw [div_lt_one hMq]; exact hrltq
      linarith
    clear h1 h2 h3 hbig hT53q ha hb hlo hhi hq hT53
    have e1 : ⌈(m : ℚ) * (1 / (P : ℚ))⌉ = (c : ℤ) + 1 := by
      rw [Int.ceil_eq_iff]; push_cast; constructor <;> linarith
    have e2 : ⌈(T : ℚ) / M⌉ = (c : ℤ) + 1 := by
      rw [Int.ceil_eq_iff]; push_cast; constructor <;> linarith
    have e3 : ⌊(m : ℚ) * (1 / (P : ℚ))⌋ = (c : ℤ) := by
      rw [Int.floor_eq_iff]; push_cast; constructor <;> linarith
    have e4 : ⌊(T : ℚ) / M⌋ = (c : ℤ) := by
      rw [Int.floor_eq_iff]; push_cast; constructor <;> linarith
    rw [e1, e2, e3, e4]
    exact ⟨rfl, rfl⟩

theorem natCeilDiv (m P : Nat) (hP : 0 < P) :
    ⌈(m : ℚ) * (1 / (P : ℚ))⌉ = (((m + P - 1) / P : Nat) : ℤ) := by
  have hPq : (0 : ℚ) < P := by exact_mod_cast hP
  have h1 : P * ((m + P - 1) / P) + (m + P - 1) % P = m + P - 1 := Nat.div_add_mod _ _
  have h2 : (m + P - 1) % P < P := Nat.mod_lt _ hP
  generalize (m + P - 1) / P = c at h1
  generalize (m + P - 1) % P = r at h1 h2
  have h3 : P * c + r + 1 = m + P := by omega
  have h3q : (P : ℚ) * c + r + 1 = m + P := by exact_mod_cast h3
  have h2q : (r : ℚ) + 1 ≤ P := by exact_mod_cast h2
  have hr0 : (0 : ℚ) ≤ r := by positivity
  rw [Int.ceil_eq_iff, mul_one_div]
  push_cast
  constructor
  · rw [lt_div_iff₀ hPq]; linarith
  · rw [div_le_iff₀ hPq]; linarith

theorem natFloorDiv (m P : Nat) (_hP : 0 < P) :
    ⌊(m : ℚ) * (1 / (P : ℚ))⌋ = ((m / P : Nat) : ℤ) := by
  rw [mul_one_div, Rat.floor_natCast_div_natCast]
  norm_cast

/-- Conversion to int of the ceiling of a finite float with non-positive exponent. -/
theorem toInt_ceil_fin (s : Bool) (m : Nat) (e : Int) (he : e ≤ 0)
    (hr : (m : ℚ) * (2 : ℚ) ^ e < 2 ^ 62) :
    F64.toInt (F64.ceil (F64.fin s m e)) =
      some (if s then -⌊(m : ℚ) * (2 : ℚ) ^ e⌋ else ⌈(m : ℚ) * (2 : ℚ) ^ e⌉) := by
  have hPpos : 0 < 2 ^ (-e).toNat := by positivity
  rw [zpow_of_nonpos e he, natCeilDiv _ _ hPpos, natFloorDiv _ _ hPpos]
  rw [zpow_of_nonpos e he] at hr
  have hfl : ((m / 2 ^ (-e).toNat : Nat) : ℚ) < 2 ^ 62 := by
    have h1 : ((m / 2 ^ (-e).toNat : Nat) : ℚ) ≤ (m : ℚ) / ((2 ^ (-e).toNat : Nat) : ℚ) :=
      Nat.cast_div_le
    rw [mul_one_div] at hr
    linarith
  have hfl' : m / 2 ^ (-e).toNat < 2 ^ 62 := by exact_mod_cast hfl
  have hcl : (m + 2 ^ (-e).toNat - 1) / 2 ^ (-e).toNat ≤ m / 2 ^ (-e).toNat + 1 := by
    have : m + 2 ^ (-e).toNat - 1 ≤ m + 2 ^ (-e).toNat := Nat.sub_le _ _
    calc (m + 2 ^ (-e).toNat - 1) / 2 ^ (-e).toNat
        ≤ (m + 2 ^ (-e).toNat) / 2 ^ (-e).toNat := Nat.div_le_div_right this
      _ = m / 2 ^ (-e).toNat + 1 := Nat.add_div_right _ hPpos
  by_cases h0 : e = 0
  · subst h0
    cases s <;> simp [F64.ceil, F64.toInt] <;> simp at hfl' <;> omega
  · have hneg : ¬ (0 ≤ e) := by omega
    cases s
    · simp only [F64.ceil, hneg, if_false, F64.toInt, Bool.false_eq_true]
      simp only [Int.toNat_zero, pow_zero, mul_one, Nat.div_one, neg_zero]
      generalize 2 ^ (-e).toNat = P at *
      generalize (m + P - 1) / P = cq at *
      generalize m / P = fq at *
      rw [if_pos]
      constructor <;> omega
    · simp only [F64.ceil, hneg, if_false, if_true, F64.toInt]
      simp only [Int.toNat_zero, pow_zero, mul_one, Nat.div_one, neg_zero]
      generalize 2 ^ (-e).toNat = P at *
      generalize (m + P - 1) / P = cq at *
      generalize m / P = fq at *
      rw [if_pos]
      constructor <;> omega

theorem ofInt_exact (A : Nat) (hA0 : 0 < A) (hA : A < 2 ^ 53) :
    0 < (roundRatio A 1).1 ∧ ((roundRatio A 1).1 : ℚ) * (2 : ℚ) ^ (roundRatio A 1).2 = A := by
  obtain ⟨h1, -, h3⟩ := roundRatio_spec A 1 hA0 Nat.one_pos
  generalize (roundRatio A 1).1 = m at *
  generalize (roundRatio A 1).2 = e at *
  have hAq : (0 : ℚ) < A := by exact_mod_cast hA0
  have hA53 : (A : ℚ) < 2 ^ 53 := by exact_mod_cast hA
  have hpos : (0 : ℚ) < (2 : ℚ) ^ (-e) := by positivity
  simp only [Nat.cast_one, div_one] at h1 h3
  have hhalf : (1 : ℚ) / 2 < (2 : ℚ) ^ (-e) := by
    by_contra hc
    push_neg at hc
    have := mul_le_mul_of_nonneg_left hc hAq.le
    linarith
  have he : e ≤ 0 := exp_nonpos_of_half_lt e hhalf
  rw [zpow_neg_toNat e he] at h1 h3 hpos
  rw [zpow_of_nonpos e he]
  generalize 2 ^ (-e).toNat = P at *
  have hm : m = A * P := h3 (A * P) (by push_cast; ring)
  have hP0 : 0 < P := by exact_mod_cast hpos
  subst hm
  constructor
  · positivity
  · push_cast; field_simp

theorem div_operands (ma mb : Nat) (ea eb : Int) (A B : Nat) (hb : 0 < mb)
    (hA : (ma : ℚ) * (2 : ℚ) ^ ea = A) (hB : (mb : ℚ) * (2 : ℚ) ^ eb = B) :
    ((scaleNum ma (eb - ea) : Nat) : ℚ) / ((scaleDen mb (eb - ea) : Nat) : ℚ) = (A : ℚ) / B := by
  have hbq : (0 : ℚ) < mb := by exact_mod_cast hb
  have h2 : (0 : ℚ) < (2 : ℚ) ^ eb := by positivity
  rw [scale_ratio, ← hA, ← hB, neg_sub, zpow_sub₀ (by norm_num)]
  field_simp

theorem scaleNum_pos (n : Nat) (e : Int) (hn : 0 < n) : 0 < scaleNum n e := by
  unfold scaleNum
  positivity

/-- Magnitude part of the exactness result: for naturals below 2^53, the float quotient
of the two conversions lies between the same integers as the exact quotient. -/
theorem div_nat_same_cell (A B : Nat) (hA0 : 0 < A) (hA : A < 2 ^ 53) (hB0 : 0 < B)
    (hB : B < 2 ^ 53) (s : Bool) :
    F64.toInt (F64.ceil (F64.fin s
      (roundRatio (scaleNum (roundRatio A 1).1 ((roundRatio B 1).2 - (roundRatio A 1).2))
        (scaleDen (roundRatio B 1).1 ((roundRatio B 1).2 - (roundRatio A 1).2))).1
      (roundRatio (scaleNum (roundRatio A 1).1 ((roundRatio B 1).2 - (roundRatio A 1).2))
        (scaleDen (roundRatio B 1).1 ((roundRatio B 1).2 - (roundRatio A 1).2))).2))
    = some (if s then -⌊(A : ℚ) / B⌋ else ⌈(A : ℚ) / B⌉) := by
  obtain ⟨ha0, haV⟩ := ofInt_exact A hA0 hA
  obtain ⟨hb0, hbV⟩ := ofInt_exact B hB0 hB
  generalize (roundRatio A 1).1 = ma at *
  generalize (roundRatio A 1).2 = ea at *
  generalize (roundRatio B 1).1 = mb at *
  generalize (roundRatio B 1).2 = eb at *
  have hq := div_operands ma mb ea eb A B hb0 haV hbV
  obtain ⟨he, hc, hf⟩ := roundRatio_same_cell _ _ A B (scaleNum_pos ma (eb - ea) ha0)
    (scaleDen_pos mb (eb - ea) hb0) hA0 hA hB0 hq
  generalize (roundRatio (scaleNum ma (eb - ea)) (scaleDen mb (eb - ea))).1 = m at *
  generalize (roundRatio (scaleNum ma (eb - ea)) (scaleDen mb (eb - ea))).2 = e at *
  have hBq : (1 : ℚ) ≤ B := by exact_mod_cast hB0
  have hAq : (A : ℚ) < 2 ^ 53 := by exact_mod_cast hA
  have hA0q : (0 : ℚ) < A := by exact_mod_cast hA0
  have hX : (m : ℚ) * (2 : ℚ) ^ e < 2 ^ 62 := by
    have h1 : (m : ℚ) * (2 : ℚ) ^ e < ⌊(m : ℚ) * (2 : ℚ) ^ e⌋ + 1 := Int.lt_floor_add_one _
    have h2 : ((⌊(A : ℚ) / B⌋ : ℤ) : ℚ) ≤ (A : ℚ) / B := Int.floor_le _
    have h3 : (A : ℚ) / B ≤ A := div_le_self hA0q.le hBq
    rw [hf] at h1
    linarith
  rw [toInt_ceil_fin s m e he hX, hc, hf]

theorem int_cast_abs (T : Int) :
    (T : ℚ) = if T < 0 then -((T.natAbs : ℕ) : ℚ) else ((T.natAbs : ℕ) : ℚ) := by
  have key : ∀ n : ℕ, (T = -(n : ℤ) → (T : ℚ) = -(n : ℚ)) ∧ (T = (n : ℤ) → (T : ℚ) = (n : ℚ)) := by
    intro n
    constructor <;> intro h <;> rw [h] <;> push_cast <;> rfl
  split
  · exact (key _).1 (by omega)
  · exact (key _).2 (by omega)

/-- Exactness of the float ceiling of a quotient of two ints of magnitude below 2^53. -/
theorem toInt_ceil_div_ofInt (T M : Int) (hT : T.natAbs < 2 ^ 53) (hM : M.natAbs < 2 ^ 53)
    (hM0 : M ≠ 0) :
    F64.toInt (F64.ceil (F64.div (F64.ofInt T) (F64.ofInt M))) = some ⌈(T : ℚ) / (M : ℚ)⌉ := by
  have hB0 : 0 < M.natAbs := Int.natAbs_pos.mpr hM0
  have hb := (ofInt_exact M.natAbs hB0 hM).1
  by_cases hT0 : T = 0
  · subst hT0
    have hb' : (roundRatio M.natAbs 1).1 ≠ 0 := by omega
    simp [F64.ofInt, hM0, F64.div, hb', F64.ceil, F64.toInt]
  · have hA0 : 0 < T.natAbs := Int.natAbs_pos.mpr hT0
    have ha := (ofInt_exact T.natAbs hA0 hT).1
    have hb' : (roundRatio M.natAbs 1).1 ≠ 0 := by omega
    have ha' : (roundRatio T.natAbs 1).1 ≠ 0 := by omega
    simp only [F64.ofInt, if_neg hT0, if_neg hM0, F64.div, if_neg hb', if_neg ha']
    rw [div_nat_same_cell T.natAbs M.natAbs hA0 hT hB0 hM]
    have hAq : (0 : ℚ) < ((T.natAbs : ℕ) : ℚ) := by exact_mod_cast hA0
    have hBq : (0 : ℚ) < ((M.natAbs : ℕ) : ℚ) := by exact_mod_cast hB0
    congr 1
    rw [int_cast_abs T, int_cast_abs M]
    by_cases h1 : T < 0 <;> by_cases h2 : M < 0
    · simp only [h1, h2, if_true, decide_True, Bool.xor_self, Bool.false_eq_true, if_false,
        neg_div_neg_eq]
    · simp only [h1, h2, if_true, if_false, decide_True, decide_False, Bool.xor_false,
        neg_div, Int.ceil_neg]
    · simp only [h1, h2, if_true, if_false, decide_True, decide_False, Bool.xor_true,
        Bool.not_false, div_neg, Int.ceil_neg]
    · simp only [h1, h2, if_false, decide_False, Bool.xor_self, Bool.false_eq_true]

/-! ## The allocation and the fill loop of `Compute` -/

theorem fillIndices_upto (l : List Int) :
    ∀ k, k ≤ l.length →
      (List.range k).foldl (fun a i => a.set i (i : Int)) l
        = (List.range k).map Int.ofNat ++ l.drop k := by
  intro k
  induction k with
  | zero => intro _; simp
  | succ k ih =>
    intro hk
    rw [List.range_succ, List.foldl_append, ih (by omega)]
    simp only [List.foldl_cons, List.foldl_nil, List.map_append, List.map_cons, List.map_nil]
    have hlen : ((List.range k).map Int.ofNat).length = k := by simp
    rw [List.set_append_right _ _ (by rw [hlen]), hlen, Nat.sub_self]
    have hd : l.drop k = l[k] :: l.drop (k + 1) := by
      rw [List.drop_eq_getElem_cons]
    rw [hd]
    simp only [List.set_cons_zero, List.append_assoc, List.singleton_append]
    rfl

theorem fillIndices_replicate (n : Nat) :
    fillIndices (List.replicate n 0) = (List.range n).map Int.ofNat := by
  unfold fillIndices
  rw [fillIndices_upto _ _ (le_refl _)]
  simp

/-- Shape of `Compute` whenever both float ceilings are exact: what remains is the case
distinction `make` draws on the page count and on the memory at hand. -/
theorem Compute_of_exact (p : Pagination) (heapBytes : Nat) (hT : p.Total.natAbs < 2 ^ 53)
    (hS : p.StartAt.natAbs < 2 ^ 53) (hM : p.MaxResults.natAbs < 2 ^ 53) (hM0 : p.MaxResults ≠ 0) :
    p.Compute heapBytes =
      if ⌈(p.Total : ℚ) / (p.MaxResults : ℚ)⌉ < 0 ∨ maxAlloc < 8 * ⌈(p.Total : ℚ) / (p.MaxResults : ℚ)⌉
      then Run.panic Fault.makeSliceLen
      else if (heapBytes : Int) < 8 * ⌈(p.Total : ℚ) / (p.MaxResults : ℚ)⌉ then Run.outOfMemory
      else Run.ret { p with
        PageCount := ⌈(p.Total : ℚ) / (p.MaxResults : ℚ)⌉,
        Page := ⌈(p.StartAt : ℚ) / (p.MaxResults : ℚ)⌉,
        Pages := (List.range ⌈(p.Total : ℚ) / (p.MaxResults : ℚ)⌉.toNat).map Int.ofNat } := by
  unfold Pagination.Compute
  rw [toInt_ceil_div_ofInt p.Total p.MaxResults hT hM hM0,
    toInt_ceil_div_ofInt p.StartAt p.MaxResults hS hM hM0]
  simp only [makeInts]
  split_ifs with h1 h2
  · rfl
  · rfl
  · simp only [fillIndices_replicate]

/-! ## The request helpers -/

theorem getRequest_of_accepted (lib : Lib) (j : Jira) (uri : String)
    (h : lib.httpNewRequest "GET" uri = none) :
    j.getRequest lib uri
      = (j.Client ⟨"GET", uri, none, [], some (j.Auth.Login, j.Auth.Password)⟩,
          [⟨"GET", uri, none, [], some (j.Auth.Login, j.Auth.Password)⟩]) := by
  simp only [Jira.getRequest, NewRequest, h, Jira.execRequest, Request.SetBasicAuth]

theorem postJson_of_accepted (lib : Lib) (j : Jira) (uri : String) (body : List UInt8)
    (h : lib.httpNewRequest "POST" uri = none) :
    j.postJson lib uri body
      = (j.Client ⟨"POST", uri, some body, [("Content-Type", "application/json")],
            some (j.Auth.Login, j.Auth.Password)⟩,
          [⟨"POST", uri, some body, [("Content-Type", "application/json")],
            some (j.Auth.Login, j.Auth.Password)⟩]) := by
  simp only [Jira.postJson, NewRequest, h, Jira.execRequest, Request.SetBasicAuth,
    Request.setHeader, List.filter_nil]

/-! ## The loop over the decoded issues -/

theorem stampAll_of_fields (l : List (Option Issue))
    (h : ∀ i ∈ l, ∃ issue fields, i = some issue ∧ issue.Fields = some fields) :
    ∃ stamped, stampAll l = some stamped ∧ stamped.length = l.length
      ∧ ∀ (k : Nat) (issue : Issue) (fields : IssueFields),
          l[k]? = some (some issue) → issue.Fields = some fields →
          stamped[k]? = some (some { issue with
            CreatedAt := parseIgnoringError dateLayout fields.Created }) := by
  induction l with
  | nil => exact ⟨[], rfl, rfl, by intro k issue fields hk; simp at hk⟩
  | cons i rest ih =>
    obtain ⟨issue0, fields0, hi, hf⟩ := h i (List.mem_cons_self _ _)
    obtain ⟨others, ho, hlen, hget⟩ := ih (fun x hx => h x (List.mem_cons_of_mem _ hx))
    refine ⟨some { issue0 with CreatedAt := parseIgnoringError dateLayout fields0.Created }
      :: others, ?_, ?_, ?_⟩
    · simp only [stampAll, hi, stampCreated, hf, ho]
    · simp [hlen]
    · intro k issue fields hk hfields
      cases k with
      | zero =>
        simp only [List.getElem?_cons_zero, Option.some.injEq] at hk
        rw [hi, Option.some.injEq] at hk
        subst hk
        rw [hf, Option.some.injEq] at hfields
        subst hfields
        simp
      | succ k =>
        simp only [List.getElem?_cons_succ] at hk ⊢
        exact hget k issue fields hk hfields

theorem stampAll_of_nil (l : List (Option Issue))
    (h : ∃ i ∈ l, i = none ∨ ∃ issue, i = some issue ∧ issue.Fields = none) :
    stampAll l = none := by
  induction l with
  | nil => obtain ⟨i, hi, -⟩ := h; simp at hi
  | cons x rest ih =>
    obtain ⟨i, hi, hbad⟩ := h
    rcases List.mem_cons.mp hi with rfl | hrest
    · rcases hbad with rfl | ⟨issue, rfl, hf⟩
      · simp [stampAll, stampCreated]
      · simp [stampAll, stampCreated, hf]
    · have := ih ⟨i, hrest, hbad⟩
      simp only [stampAll, this]
      cases stampCreated x <;> rfl

/-- What `IssuesAssignedTo` does once the transport has answered and the decoder has
succeeded. -/
theorem IssuesAssignedTo_decoded (lib : Lib) (j : Jira) (user : String) (maxResults startAt : Int)
    (contents : List UInt8) (decoded : IssueList)
    (hreq : (j.getRequest lib (j.IssuesAssignedTo_uri user maxResults startAt)).1
      = Except.ok contents)
    (hdec : lib.jsonUnmarshalIssueList contents IssueList.zero = (decoded, none)) :
    (j.IssuesAssignedTo lib user maxResults startAt).1 =
      match stampAll decoded.Issues with
      | none => Run.panic Fault.nilDeref
      | some stamped =>
        match (⟨decoded.Total, decoded.StartAt, decoded.MaxResults, 0, 0, []⟩ : Pagination).Compute
            lib.heapBytes with
        | Run.panic f => Run.panic f
        | Run.outOfMemory => Run.outOfMemory
        | Run.implDependent => Run.implDependent
        | Run.ret computed =>
          Run.ret ({ decoded with Issues := stamped, Pagination := some computed }, none) := by
  unfold Jira.IssuesAssignedTo
  rcases hg : j.getRequest lib (j.IssuesAssignedTo_uri user maxResults startAt) with ⟨res, sent⟩
  rw [hg] at hreq
  simp only at hreq
  subst hreq
  simp only [hdec]
  cases stampAll decoded.Issues with
  | none => rfl
  | some stamped =>
    simp only
    cases (⟨decoded.Total, decoded.StartAt, decoded.MaxResults, 0, 0, []⟩ : Pagination).Compute
      lib.heapBytes <;> rfl

theorem Compute_nonneg_exact (p : Pagination) (heapBytes : Nat)
    (hT0 : 0 ≤ p.Total) (hT : p.Total < 2 ^ 53)
    (hS0 : 0 ≤ p.StartAt) (hS : p.StartAt < 2 ^ 53)
    (hM0 : 0 < p.MaxResults) (hM : p.MaxResults < 2 ^ 53)
    (hlen : 8 * ⌈(p.Total : ℚ) / (p.MaxResults : ℚ)⌉ ≤ maxAlloc)
    (hmem : 8 * ⌈(p.Total : ℚ) / (p.MaxResults : ℚ)⌉ ≤ (heapBytes : Int)) :
    p.Compute heapBytes = Run.ret { p with
      PageCount := ⌈(p.Total : ℚ) / (p.MaxResults : ℚ)⌉,
      Page := ⌈(p.StartAt : ℚ) / (p.MaxResults : ℚ)⌉,
      Pages := (List.range ⌈(p.Total : ℚ) / (p.MaxResults : ℚ)⌉.toNat).map Int.ofNat } := by
  rw [Compute_of_exact p heapBytes (by omega) (by omega) (by omega) (by omega)]
  have hc : 0 ≤ ⌈(p.Total : ℚ) / (p.MaxResults : ℚ)⌉ := by
    apply Int.ceil_nonneg
    apply div_nonneg <;> exact_mod_cast (by omega)
  rw [if_neg (by omega), if_neg (by omega)]

theorem ceil_60_25 : ⌈(((60 : ℤ)) : ℚ) / (((25 : ℤ)) : ℚ)⌉ = 3 := by
  rw [Int.ceil_eq_iff]; norm_num

theorem ceil_0_25 : ⌈(((0 : ℤ)) : ℚ) / (((25 : ℤ)) : ℚ)⌉ = 0 := by
  rw [Int.ceil_eq_iff]; norm_num

theorem ceil_5_neg10 : ⌈(((5 : ℤ)) : ℚ) / (((-10 : ℤ)) : ℚ)⌉ = 0 := by
  rw [Int.ceil_eq_iff]; norm_num

theorem ceil_0_neg10 : ⌈(((0 : ℤ)) : ℚ) / (((-10 : ℤ)) : ℚ)⌉ = 0 := by
  rw [Int.ceil_eq_iff]; norm_num

/-- The float quotient of 2^53 + 1 and 2^53 is 1: the conversion of 2^53 + 1 rounds to 2^53. -/
theorem float_ceil_2_53 :
    F64.toInt (F64.ceil (F64.div (F64.ofInt (2 ^ 53 + 1)) (F64.ofInt (2 ^ 53)))) = some 1 := by
  rfl

theorem float_ceil_0_2_53 :
    F64.toInt (F64.ceil (F64.div (F64.ofInt 0) (F64.ofInt (2 ^ 53)))) = some 0 := by
  rfl

/-- The endpoint `Issue` returns the decoded value unchanged. -/
theorem Issue_returns_decoded (lib : Lib) (j : Jira) (id : String) (contents : List UInt8)
    (decoded : Gojira.Issue)
    (hreq : (j.getRequest lib (j.Issue_uri id)).1 = Except.ok contents)
    (hdec : lib.jsonUnmarshalIssue contents Issue.zero = (decoded, none)) :
    (j.Issue lib id).1 = (decoded, none) := by
  unfold Jira.Issue
  rcases hg : j.getRequest lib (j.Issue_uri id) with ⟨res, sent⟩
  rw [hg] at hreq
  simp only at hreq
  subst hreq
  simp only [hdec]

/-- A decoded response with a nil issue, or an issue with nil Fields, makes `IssuesAssignedTo`
panic with a nil dereference. -/
theorem IssuesAssignedTo_nil_fields_panics (lib : Lib) (j : Jira) (user : String)
    (maxResults startAt : Int) (contents : List UInt8) (decoded : IssueList)
    (hreq : (j.getRequest lib (j.IssuesAssignedTo_uri user maxResults startAt)).1
      = Except.ok contents)
    (hdec : lib.jsonUnmarshalIssueList contents IssueList.zero = (decoded, none))
    (hbad : ∃ i ∈ decoded.Issues, i = none ∨ ∃ issue, i = some issue ∧ issue.Fields = none) :
    (j.IssuesAssignedTo lib user maxResults startAt).1 = Run.panic Fault.nilDeref := by
  rw [IssuesAssignedTo_decoded lib j user maxResults startAt contents decoded hreq hdec,
    stampAll_of_nil decoded.Issues hbad]

/-! ## time.Parse on the timestamp format -/

theorem digitChar_toNat (n : Nat) : (digitChar n).toNat = 48 + n % 10 := by
  have h : n % 10 < 10 := Nat.mod_lt _ (by decide)
  unfold digitChar
  generalize n % 10 = k at h
  interval_cases k <;> rfl

theorem isDigit_digitChar (n : Nat) : isDigit (digitChar n) = true := by
  unfold isDigit
  rw [digitChar_toNat]
  simp
  omega

theorem digit_digitChar (n : Nat) : digit (digitChar n) = n % 10 := by
  unfold digit
  rw [digitChar_toNat]
  omega

theorem digitChar_ne (n : Nat) (c : Char) (hc : c.toNat < 48) : digitChar n ≠ c := by
  intro h
  have := digitChar_toNat n
  rw [h] at this
  omega

theorem layoutChunks_dateLayout :
    layoutChunks dateLayout.data =
      ([([], Std.longYear), (['-'], Std.zeroMonth), (['-'], Std.zeroDay), (['T'], Std.hour),
        ([':'], Std.zeroMinute), ([':'], Std.zeroSecond), ([], Std.fracSecond0 3),
        ([], Std.numTZ)], []) := by
  rfl

theorem getnum_two_digits (fixed : Bool) (a b : Nat) (rest : List Char) :
    getnum fixed (digitChar a :: digitChar b :: rest) = some (a % 10 * 10 + b % 10, rest) := by
  simp only [getnum, isDigit_digitChar, if_true, digit_digitChar]

theorem getnum_twoDigits (fixed : Bool) (n : Nat) (hn : n < 100) (rest : List Char) :
    getnum fixed (twoDigits n ++ rest) = some (n, rest) := by
  unfold twoDigits
  simp only [List.cons_append, List.nil_append, getnum_two_digits]
  congr 2
  omega

theorem skip_nil (value : List Char) : skip value [] = some value := by
  rfl

theorem skip_one (c : Char) (hc : c ≠ ' ') (rest : List Char) : skip (c :: rest) [c] = some rest := by
  simp [skip, skipAux, hc]

theorem digitsValue_digitChars3 (a b c : Nat) :
    digitsValue [digitChar a, digitChar b, digitChar c] 0
      = some ((a % 10 * 10 + b % 10) * 10 + c % 10) := by
  simp only [digitsValue, isDigit_digitChar, if_true, digit_digitChar]
  congr 1
  omega

theorem digitsValue_digitChars4 (a b c d : Nat) :
    digitsValue [digitChar a, digitChar b, digitChar c, digitChar d] 0
      = some (((a % 10 * 10 + b % 10) * 10 + c % 10) * 10 + d % 10) := by
  simp only [digitsValue, isDigit_digitChar, if_true, digit_digitChar]
  congr 1
  omega

theorem atoi_digitChar (n : Nat) (rest : List Char) :
    atoi (digitChar n :: rest) = (digitsValue (digitChar n :: rest) 0).map (fun k => (k : Int)) := by
  have h1 : digitChar n ≠ '-' := digitChar_ne n '-' (by decide)
  have h2 : digitChar n ≠ '+' := digitChar_ne n '+' (by decide)
  simp only [atoi, h1, h2, if_false]

theorem parseStd_longYear (y : Nat) (hy : y < 10000) (later : List (List Char × Std))
    (rest : List Char) (st : ParseState) :
    parseStd Std.longYear later
        (digitChar (y / 1000) :: digitChar (y / 100) :: digitChar (y / 10) :: digitChar y :: rest) st
      = some ({ st with year := (y : Int) }, rest) := by
  simp only [parseStd, isDigit_digitChar, if_true, List.take, atoi_digitChar,
    digitsValue_digitChars4, Option.map_some', List.drop]
  have : ((y / 1000 % 10 * 10 + y / 100 % 10) * 10 + y / 10 % 10) * 10 + y % 10 = y := by omega
  rw [this]
  rfl

theorem parseStd_zeroMonth (m : Nat) (h1 : 1 ≤ m) (h12 : m ≤ 12) (later : List (List Char × Std))
    (rest : List Char) (st : ParseState) :
    parseStd Std.zeroMonth later (twoDigits m ++ rest) st
      = some ({ st with month := (m : Int) }, rest) := by
  have : ¬ (m = 0 ∨ 12 < m) := by omega
  simp only [parseStd, getnum_twoDigits true m (by omega), this, if_false]

theorem parseStd_zeroDay (d : Nat) (hd : d < 100) (later : List (List Char × Std))
    (rest : List Char) (st : ParseState) :
    parseStd Std.zeroDay later (twoDigits d ++ rest) st
      = some ({ st with day := (d : Int) }, rest) := by
  simp only [parseStd, getnum_twoDigits true d hd]

theorem parseStd_hour (h : Nat) (hh : h < 24) (later : List (List Char × Std))
    (rest : List Char) (st : ParseState) :
    parseStd Std.hour later (twoDigits h ++ rest) st = some ({ st with hour := h }, rest) := by
  have : ¬ 24 ≤ h := by omega
  simp only [parseStd, getnum_twoDigits false h (by omega), this, if_false]

theorem parseStd_zeroMinute (m : Nat) (hm : m < 60) (later : List (List Char × Std))
    (rest : List Char) (st : ParseState) :
    parseStd Std.zeroMinute later (twoDigits m ++ rest) st = some ({ st with min := m }, rest) := by
  have : ¬ 60 ≤ m := by omega
  simp only [parseStd, getnum_twoDigits true m (by omega), this, if_false]

theorem parseStd_zeroSecond (s : Nat) (hs : s < 60) (digits : Nat)
    (later : List (List Char × Std)) (rest : List Char) (st : ParseState) :
    parseStd Std.zeroSecond (([], Std.fracSecond0 digits) :: later) (twoDigits s ++ rest) st
      = some ({ st with sec := s }, rest) := by
  have : ¬ 60 ≤ s := by omega
  simp only [parseStd, getnum_twoDigits true s (by omega), this, if_false, nextIsFrac, isFrac,
    Bool.not_true, Bool.and_false]
  split <;> simp

theorem parseStd_fracSecond0 (ms : Nat) (hms : ms < 1000) (later : List (List Char × Std))
    (rest : List Char) (st : ParseState) :
    parseStd (Std.fracSecond0 3) later
        ('.' :: digitChar (ms / 100) :: digitChar (ms / 10) :: digitChar ms :: rest) st
      = some ({ st with nsec := ms * 1000000 }, rest) := by
  have hlen : ¬ (('.' :: digitChar (ms / 100) :: digitChar (ms / 10) :: digitChar ms :: rest).length
      < 1 + 3) := by simp
  have hv : (ms / 100 % 10 * 10 + ms / 10 % 10) * 10 + ms % 10 = ms := by omega
  simp only [parseStd, hlen, if_false, parseNanoseconds, commaOrPeriod, decide_True, Bool.true_or,
    if_true, List.take, List.drop, atoi_digitChar, digitsValue_digitChars3, Option.map_some', hv]
  have hneg : ¬ ((ms : Int) < 0) := by omega
  simp [hneg]

theorem parseStd_numTZ (west : Bool) (zh zm : Nat) (hzh : zh ≤ 24) (hzm : zm ≤ 60)
    (later : List (List Char × Std)) (rest : List Char) (st : ParseState) :
    parseStd Std.numTZ later
        ((if west then '-' else '+') :: (twoDigits zh ++ (twoDigits zm ++ rest))) st
      = some ({ st with zoneOffset :=
          if west then -(((zh * 60 + zm) * 60 : Nat) : Int) else (((zh * 60 + zm) * 60 : Nat) : Int) },
          rest) := by
  have e1 : getnum true [digitChar (zh / 10), digitChar zh] = some (zh, []) := by
    have := getnum_twoDigits true zh (by omega) []
    simpa [twoDigits] using this
  have e2 : getnum true [digitChar (zm / 10), digitChar zm] = some (zm, []) := by
    have := getnum_twoDigits true zm (by omega) []
    simpa [twoDigits] using this
  have hr : ¬ (24 < zh ∨ 60 < zm) := by omega
  cases west <;>
    simp [parseStd, twoDigits, e1, e2, hr]

theorem parseChunks_render (s : Stamp) (h : s.valid) :
    parseChunks (layoutChunks dateLayout.data).1 (layoutChunks dateLayout.data).2 s.render.data
        ParseState.init
      = some ⟨(s.year : Int), (s.month : Int), (s.day : Int), s.hour, s.min, s.sec,
          s.millis * 1000000, s.offset⟩ := by
  obtain ⟨hy, hm1, hm12, hd1, hd, hh, hmi, hs, hms, hzh, hzm⟩ := h
  have hday : s.day < 100 := by
    have : daysIn (s.month : Int) (s.year : Int) ≤ 31 := by
      unfold daysIn
      split_ifs <;> omega
    omega
  rw [layoutChunks_dateLayout]
  simp only [Stamp.render, List.append_assoc, List.cons_append, List.nil_append]
  have c1 : ('-' : Char) ≠ ' ' := by decide
  have c2 : ('T' : Char) ≠ ' ' := by decide
  have c3 : (':' : Char) ≠ ' ' := by decide
  simp only [parseChunks, skip_nil, skip_one _ c1, skip_one _ c2, skip_one _ c3,
    parseStd_longYear s.year hy, parseStd_zeroMonth s.month hm1 hm12, parseStd_zeroDay s.day hday,
    parseStd_hour s.hour hh, parseStd_zeroMinute s.min hmi, parseStd_zeroSecond s.sec hs,
    parseStd_fracSecond0 s.millis hms]
  have hz := parseStd_numTZ s.west s.zoneHour s.zoneMin hzh hzm [] []
  simp only [List.append_nil] at hz
  simp only [hz, ParseState.init, Stamp.offset]

theorem finishParse_render (s : Stamp) (h : s.valid) :
    finishParse ⟨(s.year : Int), (s.month : Int), (s.day : Int), s.hour, s.min, s.sec,
        s.millis * 1000000, s.offset⟩ = some s.time := by
  obtain ⟨hy, hm1, hm12, hd1, hd, hh, hmi, hs, hms, hzh, hzm⟩ := h
  have h1 : ¬ ((s.month : Int) < 0) := by omega
  have h2 : ¬ ((s.day : Int) < 0) := by omega
  have h3 : ¬ ((s.day : Int) < 1 ∨ daysIn (s.month : Int) (s.year : Int) < (s.day : Int)) := by omega
  have h4 : s.offset ≠ -1 := by
    unfold Stamp.offset
    split <;> omega
  simp only [finishParse, h1, h2, h3, if_false, h4, ne_eq, not_false_eq_true, if_true, Stamp.time]

/-- On the text of a valid timestamp in the format YYYY-MM-DDThh:mm:ss.sss±hhmm,
`time.Parse(dateLayout, ·)` returns the instant and the offset the text denotes. -/
theorem timeParse_render (s : Stamp) (h : s.valid) :
    timeParse dateLayout s.render = Except.ok s.time := by
  unfold timeParse
  rw [parseChunks_render s h]
  simp only [finishParse_render s h]

/-! ## UTF-8 and the JSON string codec -/

theorem byte_ofNat_toNat (b : UInt8) (n : Nat) (h : n = b.toNat) : UInt8.ofNat n = b := by
  subst h
  apply UInt8.ext
  exact UInt8.toNat_ofNat_of_lt (UInt8.toNat_lt_size b)

/-- A well-formed rune of two to four bytes at the head of `bs`: `utf8.EncodeRune` gives its
bytes back, and `utf8.DecodeRune` reads it the same whatever follows. -/
theorem decodeRune_wellFormed (b0 : UInt8) (rest : List UInt8) (h0 : ¬ b0.toNat < 128)
    (hv : ¬ ((decodeRune (b0 :: rest)).1 = 65533 ∧ (decodeRune (b0 :: rest)).2 = 1)) :
    1 ≤ (decodeRune (b0 :: rest)).2
    ∧ (decodeRune (b0 :: rest)).2 ≤ (b0 :: rest).length
    ∧ encodeRune (decodeRune (b0 :: rest)).1 = (b0 :: rest).take (decodeRune (b0 :: rest)).2
    ∧ (∀ t, decodeRune ((b0 :: rest).take (decodeRune (b0 :: rest)).2 ++ t)
        = decodeRune (b0 :: rest)) := by
  by_cases c2 : 194 ≤ b0.toNat ∧ b0.toNat ≤ 223
  · cases rest with
    | nil => simp [decodeRune, h0, c2] at hv
    | cons b1 r1 =>
      by_cases k1 : 128 ≤ b1.toNat ∧ b1.toNat ≤ 191
      · have e : decodeRune (b0 :: b1 :: r1) = ((b0.toNat - 192) * 64 + (b1.toNat - 128), 2) := by
          simp only [decodeRune, h0, if_false, c2, k1, and_self, if_true]
        rw [e]
        refine ⟨by simp, by simp, ?_, ?_⟩
        · have h1 : ¬ ((b0.toNat - 192) * 64 + (b1.toNat - 128) < 128) := by omega
          have h2 : (b0.toNat - 192) * 64 + (b1.toNat - 128) < 2048 := by omega
          simp only [encodeRune, h1, if_false, h2, if_true, List.take]
          rw [byte_ofNat_toNat b0 _ (by omega), byte_ofNat_toNat b1 _ (by omega)]
        · intro t
          simp only [List.take, List.cons_append, List.nil_append, decodeRune, h0, if_false, c2, k1,
            and_self, if_true]
      · simp [decodeRune, h0, c2, k1] at hv
  · by_cases c3 : 224 ≤ b0.toNat ∧ b0.toNat ≤ 239
    · match rest with
      | [] => simp [decodeRune, h0, c2, c3] at hv
      | [_] => simp [decodeRune, h0, c2, c3] at hv
      | b1 :: b2 :: r2 =>
        by_cases k : (if b0.toNat = 224 then 160 else 128) ≤ b1.toNat
            ∧ b1.toNat ≤ (if b0.toNat = 237 then 159 else 191)
            ∧ 128 ≤ b2.toNat ∧ b2.toNat ≤ 191
        · have e : decodeRune (b0 :: b1 :: b2 :: r2)
              = (((b0.toNat - 224) * 64 + (b1.toNat - 128)) * 64 + (b2.toNat - 128), 3) := by
            simp only [decodeRune, h0, if_false, c2, c3, k, and_self, if_true]
          rw [e]
          refine ⟨by simp, by simp, ?_, ?_⟩
          · obtain ⟨k1, k2, k3, k4⟩ := k
            have hb1 : 128 ≤ b1.toNat ∧ b1.toNat ≤ 191 := by
              split_ifs at k1 k2 <;> omega
            have hlo : 2048 ≤ ((b0.toNat - 224) * 64 + (b1.toNat - 128)) * 64 + (b2.toNat - 128) := by
              split_ifs at k1 k2 <;> omega
            have hsur : ¬ ((55296 ≤ ((b0.toNat - 224) * 64 + (b1.toNat - 128)) * 64 + (b2.toNat - 128)
                ∧ ((b0.toNat - 224) * 64 + (b1.toNat - 128)) * 64 + (b2.toNat - 128) < 57344)
                ∨ 1114111 < ((b0.toNat - 224) * 64 + (b1.toNat - 128)) * 64 + (b2.toNat - 128)) := by
              split_ifs at k1 k2 <;> omega
            have h1 : ¬ (((b0.toNat - 224) * 64 + (b1.toNat - 128)) * 64 + (b2.toNat - 128) < 128) := by
              omega
            have h2 : ¬ (((b0.toNat - 224) * 64 + (b1.toNat - 128)) * 64 + (b2.toNat - 128) < 2048) := by
              omega
            have h3 : ((b0.toNat - 224) * 64 + (b1.toNat - 128)) * 64 + (b2.toNat - 128) < 65536 := by
              omega
            simp only [encodeRune, h1, h2, hsur, h3, if_false, if_true, List.take]
            rw [byte_ofNat_toNat b0 _ (by omega), byte_ofNat_toNat b1 _ (by omega),
              byte_ofNat_toNat b2 _ (by omega)]
          · intro t
            simp only [List.take, List.cons_append, List.nil_append, decodeRune, h0, if_false, c2,
              c3, k, and_self, if_true]
        · simp [decodeRune, h0, c2, c3, k] at hv
    · by_cases c4 : 240 ≤ b0.toNat ∧ b0.toNat ≤ 244
      · match rest with
        | [] => simp [decodeRune, h0, c2, c3, c4] at hv
        | [_] => simp [decodeRune, h0, c2, c3, c4] at hv
        | [_, _] => simp [decodeRune, h0, c2, c3, c4] at hv
        | b1 :: b2 :: b3 :: r3 =>
          by_cases k : (if b0.toNat = 240 then 144 else 128) ≤ b1.toNat
              ∧ b1.toNat ≤ (if b0.toNat = 244 then 143 else 191)
              ∧ 128 ≤ b2.toNat ∧ b2.toNat ≤ 191 ∧ 128 ≤ b3.toNat ∧ b3.toNat ≤ 191
          · have e : decodeRune (b0 :: b1 :: b2 :: b3 :: r3)
                = ((((b0.toNat - 240) * 64 + (b1.toNat - 128)) * 64 + (b2.toNat - 128)) * 64
                    + (b3.toNat - 128), 4) := by
              simp only [decodeRune, h0, if_false, c2, c3, c4, k, and_self, if_true]
            rw [e]
            refine ⟨by simp, by simp, ?_, ?_⟩
            · obtain ⟨k1, k2, k3, k4, k5, k6⟩ := k
              have hb1 : 128 ≤ b1.toNat ∧ b1.toNat ≤ 191 := by
                split_ifs at k1 k2 <;> omega
              have hlo : 65536 ≤ (((b0.toNat - 240) * 64 + (b1.toNat - 128)) * 64
                  + (b2.toNat - 128)) * 64 + (b3.toNat - 128) := by
                split_ifs at k1 k2 <;> omega
              have hhi : (((b0.toNat - 240) * 64 + (b1.toNat - 128)) * 64
                  + (b2.toNat - 128)) * 64 + (b3.toNat - 128) ≤ 1114111 := by
                split_ifs at k1 k2 <;> omega
              generalize hr : (((b0.toNat - 240) * 64 + (b1.toNat - 128)) * 64
                  + (b2.toNat - 128)) * 64 + (b3.toNat - 128) = r at hlo hhi
              have h1 : ¬ (r < 128) := by omega
              have h2 : ¬ (r < 2048) := by omega
              have hsur : ¬ ((55296 ≤ r ∧ r < 57344) ∨ 1114111 < r) := by omega
              have h3 : ¬ (r < 65536) := by omega
              simp only [encodeRune, h1, h2, hsur, h3, if_false, List.take]
              rw [byte_ofNat_toNat b0 _ (by omega), byte_ofNat_toNat b1 _ (by omega),
                byte_ofNat_toNat b2 _ (by omega), byte_ofNat_toNat b3 _ (by omega)]
            · intro t
              simp only [List.take, List.cons_append, List.nil_append, decodeRune, h0, if_false, c2,
                c3, c4, k, and_self, if_true]
          · simp [decodeRune, h0, c2, c3, c4, k] at hv
      · simp [decodeRune, h0, c2, c3, c4] at hv

theorem byte_eq_of_toNat (b : UInt8) (n : Nat) (_hn : n < 256) (h : b.toNat = n) :
    b = UInt8.ofNat n := by
  rw [byte_ofNat_toNat b n h.symm]

theorem hexByteValue_lowerHexByte (k : Nat) (hk : k < 16) :
    hexByteValue (lowerHexByte k) = some k := by
  have : k = 0 ∨ k = 1 ∨ k = 2 ∨ k = 3 ∨ k = 4 ∨ k = 5 ∨ k = 6 ∨ k = 7 ∨ k = 8 ∨ k = 9
      ∨ k = 10 ∨ k = 11 ∨ k = 12 ∨ k = 13 ∨ k = 14 ∨ k = 15 := by omega
  rcases this with h | h | h | h | h | h | h | h | h | h | h | h | h | h | h | h <;> subst h <;> rfl

theorem encodeRune_ascii (b : UInt8) (h : b.toNat < 128) : encodeRune b.toNat = [b] := by
  simp only [encodeRune, h, if_true]
  rw [byte_ofNat_toNat b _ rfl]

theorem escapeASCII_ne_nil (b : UInt8) : 1 ≤ (escapeASCII b).length := by
  unfold escapeASCII
  split_ifs <;> simp

/-- The decoder reads the escape of an ASCII byte back as that byte. -/
theorem unquoteAux_escapeASCII (b : UInt8) (hb : b.toNat < 128) (m : Nat) (tail s after : List UInt8)
    (h : unquoteAux m tail = some (s, after)) :
    unquoteAux (m + 1) (escapeASCII b ++ tail) = some (b :: s, after) := by
  have q92 : (92 : UInt8).toNat = 92 := rfl
  have q117 : (117 : UInt8).toNat = 117 := rfl
  have q98 : (98 : UInt8).toNat = 98 := rfl
  have q102 : (102 : UInt8).toNat = 102 := rfl
  have q110 : (110 : UInt8).toNat = 110 := rfl
  have q114 : (114 : UInt8).toNat = 114 := rfl
  have q116 : (116 : UInt8).toNat = 116 := rfl
  unfold escapeASCII
  split_ifs with c1 c2 c3 c4 c5 c6 c7
  · rcases c1 with c | c
    · have : b = 34 := byte_eq_of_toNat b 34 (by omega) c
      subst this
      simp [unquoteAux, simpleEscape, h]
      rfl
    · have : b = 92 := byte_eq_of_toNat b 92 (by omega) c
      subst this
      simp [unquoteAux, simpleEscape, h]
      rfl
  · have : b = 8 := byte_eq_of_toNat b 8 (by omega) c2
    subst this
    simp [unquoteAux, simpleEscape, h, q92, q98]
    rfl
  · have : b = 12 := byte_eq_of_toNat b 12 (by omega) c3
    subst this
    simp [unquoteAux, simpleEscape, h, q92, q102]
    rfl
  · have : b = 10 := byte_eq_of_toNat b 10 (by omega) c4
    subst this
    simp [unquoteAux, simpleEscape, h, q92, q110]
    rfl
  · have : b = 13 := byte_eq_of_toNat b 13 (by omega) c5
    subst this
    simp [unquoteAux, simpleEscape, h, q92, q114]
    rfl
  · have : b = 9 := byte_eq_of_toNat b 9 (by omega) c6
    subst this
    simp [unquoteAux, simpleEscape, h, q92, q116]
    rfl
  · have hx : hex4 (48 :: 48 :: lowerHexByte (b.toNat / 16) :: lowerHexByte (b.toNat % 16) :: tail)
        = some (b.toNat, tail) := by
      have z : hexByteValue 48 = some 0 := rfl
      simp only [hex4, z, hexByteValue_lowerHexByte (b.toNat / 16) (by omega),
        hexByteValue_lowerHexByte (b.toNat % 16) (by omega)]
      congr 2
      omega
    have hs : ¬ (55296 ≤ b.toNat ∧ b.toNat < 57344) := by omega
    have he : escapedRune b.toNat tail = (b.toNat, tail) := by
      simp only [escapedRune, hs, if_false]
    simp only [List.cons_append, List.nil_append, unquoteAux, q92, q117, hx, he, h,
      encodeRune_ascii b hb]
    simp
  · have n34 : ¬ b.toNat = 34 := by omega
    have n92 : ¬ b.toNat = 92 := by omega
    have n32 : ¬ b.toNat < 32 := by omega
    simp only [List.cons_append, List.nil_append, unquoteAux, n34, n92, n32, hb, if_false, if_true, h]

theorem unquoteAux_quote (m : Nat) (t : List UInt8) :
    unquoteAux (m + 1) (34 :: t) = some ([], t) := by
  have q34 : (34 : UInt8).toNat = 34 := rfl
  simp only [unquoteAux, q34, if_true]

/-- The decoder reads a well-formed rune of two to four bytes back as its own bytes. -/
theorem unquoteAux_rune (b : UInt8) (rest : List UInt8) (hb : ¬ b.toNat < 128)
    (hv : ¬ ((decodeRune (b :: rest)).1 = 65533 ∧ (decodeRune (b :: rest)).2 = 1))
    (m : Nat) (tail s after : List UInt8) (h : unquoteAux m tail = some (s, after)) :
    unquoteAux (m + 1) ((b :: rest).take (decodeRune (b :: rest)).2 ++ tail)
      = some ((b :: rest).take (decodeRune (b :: rest)).2 ++ s, after) := by
  obtain ⟨k1, k2, hE, hD⟩ := decodeRune_wellFormed b rest hb hv
  have hD' := hD tail
  obtain ⟨k, hk⟩ : ∃ k, (decodeRune (b :: rest)).2 = k + 1 := ⟨_, (Nat.sub_add_cancel k1).symm⟩
  rw [hk] at k2 hE hD' ⊢
  simp only [List.take_succ_cons, List.cons_append, List.length_cons] at k2 hE hD' ⊢
  have n34 : ¬ b.toNat = 34 := by omega
  have n92 : ¬ b.toNat = 92 := by omega
  have n32 : ¬ b.toNat < 32 := by omega
  have hlen : (List.take k rest).length = k := by
    rw [List.length_take]; omega
  have hdrop : List.drop k (List.take k rest ++ tail) = tail := by
    have := List.drop_left (List.take k rest) tail
    rw [hlen] at this
    exact this
  simp only [unquoteAux, n34, n92, n32, hb, if_false, hD', hk, Nat.add_sub_cancel, hdrop, h, hE,
    List.cons_append]

/-- The decoder reads the escape of a line or paragraph separator back as its bytes. -/
theorem unquoteAux_separator (r : Nat) (hr : r = 8232 ∨ r = 8233) (m : Nat)
    (tail s after : List UInt8) (h : unquoteAux m tail = some (s, after)) :
    unquoteAux (m + 1) ([92, 117, 50, 48, 50, lowerHexByte (r % 16)] ++ tail)
      = some (encodeRune r ++ s, after) := by
  have q92 : (92 : UInt8).toNat = 92 := rfl
  have q117 : (117 : UInt8).toNat = 117 := rfl
  have n34 : ¬ (92 : UInt8).toNat = 34 := by decide
  have hx : hex4 (50 :: 48 :: 50 :: lowerHexByte (r % 16) :: tail) = some (r, tail) := by
    rcases hr with hr | hr <;> subst hr <;> rfl
  have hs : ¬ (55296 ≤ r ∧ r < 57344) := by omega
  have he : escapedRune r tail = (r, tail) := by
    simp only [escapedRune, hs, if_false]
  simp only [List.cons_append, List.nil_append, unquoteAux, n34, q92, q117, if_false, if_true,
    hx, he, h]
  rfl

/-- What the decoder reads back from the encoding of well-formed UTF-8 is the bytes that
were encoded. -/
theorem unquoteAux_appendStringAux (n : Nat) : ∀ (bs : List UInt8), validUTF8Aux n bs = true →
    ∀ (m : Nat) (t : List UInt8), (appendStringAux n bs).length < m →
      unquoteAux m (appendStringAux n bs ++ 34 :: t) = some (bs, t) := by
  induction n with
  | zero =>
    intro bs hv m t hm
    have hnil : bs = [] := by simpa [validUTF8Aux] using hv
    subst hnil
    cases m with
    | zero => simp [appendStringAux] at hm
    | succ m => simp only [appendStringAux, List.nil_append, unquoteAux_quote]
  | succ n ih =>
    intro bs hv m t hm
    cases bs with
    | nil =>
      cases m with
      | zero => simp [appendStringAux] at hm
      | succ m => simp only [appendStringAux, List.nil_append, unquoteAux_quote]
    | cons b rest =>
      cases m with
      | zero => exact absurd hm (Nat.not_lt_zero _)
      | succ m =>
        by_cases hb : b.toNat < 128
        · have hdec : decodeRune (b :: rest) = (b.toNat, 1) := by
            simp only [decodeRune, hb, if_true]
          have hne : ¬ (b.toNat = 65533 ∧ True) := by omega
          have hv' : validUTF8Aux n rest = true := by
            simpa only [validUTF8Aux, hdec, hne, if_false, Nat.sub_self, List.drop_zero] using hv
          have henc : appendStringAux (n + 1) (b :: rest)
              = escapeASCII b ++ appendStringAux n rest := by
            simp only [appendStringAux, hb, if_true]
          rw [henc] at hm ⊢
          rw [List.append_assoc]
          apply unquoteAux_escapeASCII b hb
          apply ih rest hv'
          have := escapeASCII_ne_nil b
          rw [List.length_append] at hm
          omega
        · by_cases hbad : (decodeRune (b :: rest)).1 = 65533 ∧ (decodeRune (b :: rest)).2 = 1
          · simp only [validUTF8Aux, hbad, and_self, if_true] at hv
            exact absurd hv (by decide)
          · have hv' : validUTF8Aux n (rest.drop ((decodeRune (b :: rest)).2 - 1)) = true := by
              simpa only [validUTF8Aux, hbad, if_false] using hv
            obtain ⟨k1, k2, hE, _⟩ := decodeRune_wellFormed b rest hb hbad
            have hsplit : (b :: rest).take (decodeRune (b :: rest)).2
                ++ rest.drop ((decodeRune (b :: rest)).2 - 1) = b :: rest := by
              have e : rest.drop ((decodeRune (b :: rest)).2 - 1)
                  = (b :: rest).drop (decodeRune (b :: rest)).2 := by
                obtain ⟨k, hk⟩ : ∃ k, (decodeRune (b :: rest)).2 = k + 1 :=
                  ⟨_, (Nat.sub_add_cancel k1).symm⟩
                rw [hk]
                rfl
              rw [e, List.take_append_drop]
            by_cases hsep : (decodeRune (b :: rest)).1 = 8232 ∨ (decodeRune (b :: rest)).1 = 8233
            · have henc : appendStringAux (n + 1) (b :: rest)
                  = [92, 117, 50, 48, 50, lowerHexByte ((decodeRune (b :: rest)).1 % 16)]
                    ++ appendStringAux n (rest.drop ((decodeRune (b :: rest)).2 - 1)) := by
                simp only [appendStringAux, hb, hbad, hsep, if_false, if_true]
              rw [henc] at hm ⊢
              rw [List.append_assoc]
              have hstep := unquoteAux_separator _ hsep m
                (appendStringAux n (rest.drop ((decodeRune (b :: rest)).2 - 1)) ++ 34 :: t)
                (rest.drop ((decodeRune (b :: rest)).2 - 1)) t
                (ih _ hv' m t (by
                  rw [List.length_append] at hm
                  simp only [List.length_cons, List.length_nil] at hm
                  omega))
              rw [hstep, hE, hsplit]
            · have henc : appendStringAux (n + 1) (b :: rest)
                  = (b :: rest).take (decodeRune (b :: rest)).2
                    ++ appendStringAux n (rest.drop ((decodeRune (b :: rest)).2 - 1)) := by
                simp only [appendStringAux, hb, hbad, hsep, if_false]
              rw [henc] at hm ⊢
              rw [List.append_assoc]
              have hstep := unquoteAux_rune b rest hb hbad m
                (appendStringAux n (rest.drop ((decodeRune (b :: rest)).2 - 1)) ++ 34 :: t)
                (rest.drop ((decodeRune (b :: rest)).2 - 1)) t
                (ih _ hv' m t (by
                  rw [List.length_append, List.length_take] at hm
                  simp only [List.length_cons] at hm k2
                  omega))
              rw [hstep, hsplit]

/-- Round trip of the string codec: a JSON string literal written by the encoder for
well-formed UTF-8 decodes to the same bytes. -/
theorem decodeJSONString_encodeJSONString (s t : List UInt8) (h : validUTF8 s = true) :
    decodeJSONString (encodeJSONString s ++ t) = some (s, t) := by
  have q34 : (34 : UInt8).toNat = 34 := rfl
  simp only [encodeJSONString, List.cons_append, decodeJSONString, q34, if_true,
    List.append_assoc, List.nil_append]
  apply unquoteAux_appendStringAux s.length s h
  rw [List.length_append]
  simp only [List.length_cons]
  omega

theorem decodeSingleMember_marshal (key value : List UInt8) (hk : validUTF8 key = true)
    (hv : validUTF8 value = true) :
    decodeSingleMember (123 :: (encodeMembers [(key, value)] ++ [125])) = some (key, value) := by
  have q123 : (123 : UInt8).toNat = 123 := rfl
  have q58 : (58 : UInt8).toNat = 58 := rfl
  have q125 : (125 : UInt8).toNat = 125 := rfl
  have e1 : encodeMembers [(key, value)] ++ [125]
      = encodeJSONString key ++ (58 :: (encodeJSONString value ++ [125])) := by
    simp [encodeMembers]
  rw [e1]
  simp only [decodeSingleMember, q123, if_true, decodeJSONString_encodeJSONString key _ hk, q58,
    decodeJSONString_encodeJSONString value _ hv, q125]

/-! ## C1: the ceilings computed by `Compute` -/

/-- C1 (as stated, refuted): the page count is not the exact ceiling over the whole 64-bit
range. For total = 2^53 + 1, startAt = 0 and maxResults = 2^53 the conversion `float64(total)`
rounds to 2^53, the float quotient is 1 and `Compute`, with memory for the one element it
allocates, stores PageCount = 1, while the exact ceiling of total / maxResults is 2. For
total = 2^50 and maxResults = 1 the page count is more than `make` accepts and `Compute`
panics without producing Pages, however much memory there is. So the property fails even
when the allocator can provide the 8 * ceil(total / maxResults) bytes of the exact page
count. -/
theorem C1_exact_ceiling_fails_over_int_range :
    (∀ heapBytes : Nat, 8 ≤ heapBytes →
        (⟨2 ^ 53 + 1, 0, 2 ^ 53, 0, 0, []⟩ : Pagination).Compute heapBytes
          = Run.ret ⟨2 ^ 53 + 1, 0, 2 ^ 53, 0, 1, [0]⟩)
    ∧ ⌈(((2 ^ 53 + 1 : ℤ)) : ℚ) / (((2 ^ 53 : ℤ)) : ℚ)⌉ = 2
    ∧ (∀ heapBytes : Nat,
        (⟨2 ^ 50, 0, 1, 0, 0, []⟩ : Pagination).Compute heapBytes = Run.panic Fault.makeSliceLen)
    ∧ ¬ ∀ (heapBytes : Nat) (total startAt maxResults : Int),
        0 ≤ total → total < 2 ^ 63 → 0 ≤ startAt → startAt < 2 ^ 63 →
        0 < maxResults → maxResults < 2 ^ 63 →
        8 * ⌈(total : ℚ) / (maxResults : ℚ)⌉ ≤ (heapBytes : Int) →
        ∃ q : Pagination,
          (⟨total, startAt, maxResults, 0, 0, []⟩ : Pagination).Compute heapBytes = Run.ret q
          ∧ q.PageCount = ⌈(total : ℚ) / (maxResults : ℚ)⌉
          ∧ q.Page = ⌈(startAt : ℚ) / (maxResults : ℚ)⌉
          ∧ q.Pages = (List.range q.PageCount.toNat).map Int.ofNat := by
  have hrun : ∀ heapBytes : Nat, 8 ≤ heapBytes →
      (⟨2 ^ 53 + 1, 0, 2 ^ 53, 0, 0, []⟩ : Pagination).Compute heapBytes
        = Run.ret ⟨2 ^ 53 + 1, 0, 2 ^ 53, 0, 1, [0]⟩ := by
    intro heapBytes hheap
    have hpanic : ¬ ((1 : Int) < 0 ∨ maxAlloc < 8 * 1) := by decide
    have hmem : ¬ ((heapBytes : Int) < 8 * 1) := by omega
    simp only [Pagination.Compute, float_ceil_2_53, float_ceil_0_2_53, makeInts, hpanic, hmem,
      if_false]
    rfl
  have hc : ⌈(((2 ^ 53 + 1 : ℤ)) : ℚ) / (((2 ^ 53 : ℤ)) : ℚ)⌉ = 2 := by
    rw [Int.ceil_eq_iff]; norm_num
  have hbig : ∀ heapBytes : Nat,
      (⟨2 ^ 50, 0, 1, 0, 0, []⟩ : Pagination).Compute heapBytes = Run.panic Fault.makeSliceLen := by
    intro heapBytes
    have hc50 : ⌈(((2 ^ 50 : ℤ)) : ℚ) / (((1 : ℤ)) : ℚ)⌉ = 2 ^ 50 := by
      rw [Int.ceil_eq_iff]; norm_num
    rw [Compute_of_exact ⟨2 ^ 50, 0, 1, 0, 0, []⟩ heapBytes (by decide) (by decide) (by decide)
      (by decide)]
    simp only [hc50]
    rw [if_pos]
    right
    decide
  refine ⟨hrun, hc, hbig, ?_⟩
  intro h
  obtain ⟨q, hq, hpc, -, -⟩ := h 16 (2 ^ 53 + 1) 0 (2 ^ 53) (by norm_num) (by norm_num)
    (by norm_num) (by norm_num) (by norm_num) (by norm_num) (by rw [hc]; norm_num)
  rw [hrun 16 (by norm_num)] at hq
  have hq' : q = ⟨2 ^ 53 + 1, 0, 2 ^ 53, 0, 1, [0]⟩ := (Run.ret.inj hq).symm
  rw [hc, hq'] at hpc
  exact absurd hpc (by decide)

/-- C1 (amended): for 0 ≤ total < 2^53, 0 ≤ startAt < 2^53, 0 < maxResults < 2^53 and a page
count that `make` accepts (8 * ceil(total / maxResults) ≤ maxAlloc) and for which the
allocator can provide the memory (8 * ceil(total / maxResults) ≤ heapBytes), `Compute`
completes and leaves PageCount = ceil(total / maxResults) and Page = ceil(startAt /
maxResults) as exact rational ceilings, with Pages = [0, ..., PageCount - 1]; the other
fields are unchanged. -/
theorem C1_Compute_exact_below_2_53 (p : Pagination) (heapBytes : Nat)
    (hT0 : 0 ≤ p.Total) (hT : p.Total < 2 ^ 53)
    (hS0 : 0 ≤ p.StartAt) (hS : p.StartAt < 2 ^ 53)
    (hM0 : 0 < p.MaxResults) (hM : p.MaxResults < 2 ^ 53)
    (hlen : 8 * ⌈(p.Total : ℚ) / (p.MaxResults : ℚ)⌉ ≤ maxAlloc)
    (hmem : 8 * ⌈(p.Total : ℚ) / (p.MaxResults : ℚ)⌉ ≤ (heapBytes : Int)) :
    p.Compute heapBytes = Run.ret { p with
      PageCount := ⌈(p.Total : ℚ) / (p.MaxResults : ℚ)⌉,
      Page := ⌈(p.StartAt : ℚ) / (p.MaxResults : ℚ)⌉,
      Pages := (List.range ⌈(p.Total : ℚ) / (p.MaxResults : ℚ)⌉.toNat).map Int.ofNat } :=
  Compute_nonneg_exact p heapBytes hT0 hT hS0 hS hM0 hM hlen hmem

/-- C1 (amended), instance: total = 60, startAt = 0, maxResults = 25 with 24 bytes of memory
gives page 0 of 3 pages. -/
theorem C1_Compute_exact_below_2_53_witness :
    (⟨60, 0, 25, 0, 0, []⟩ : Pagination).Compute 24 = Run.ret ⟨60, 0, 25, 0, 3, [0, 1, 2]⟩ := by
  have h := C1_Compute_exact_below_2_53 ⟨60, 0, 25, 0, 0, []⟩ 24 (by decide) (by decide)
    (by decide) (by decide) (by decide) (by decide) (by rw [ceil_60_25]; decide)
    (by rw [ceil_60_25]; decide)
  rw [ceil_60_25, ceil_0_25] at h
  exact h

/-! ## C2: a non-positive page size -/

/-- C2 (as stated, refuted): `Compute` has no error result and no guard on maxResults. With
total = 5, startAt = 0 and maxResults = -10 it divides, completes normally, whatever the
memory at hand, and stores Page = 0, PageCount = 0 and an empty Pages. -/
theorem C2_no_guard_on_maxResults :
    (∀ heapBytes : Nat,
        (⟨5, 0, -10, 0, 0, []⟩ : Pagination).Compute heapBytes = Run.ret ⟨5, 0, -10, 0, 0, []⟩)
    ∧ ¬ ∀ (heapBytes : Nat) (total startAt maxResults : Int), maxResults ≤ 0 →
        ∀ q : Pagination,
          (⟨total, startAt, maxResults, 0, 0, []⟩ : Pagination).Compute heapBytes ≠ Run.ret q := by
  have hrun : ∀ heapBytes : Nat,
      (⟨5, 0, -10, 0, 0, []⟩ : Pagination).Compute heapBytes = Run.ret ⟨5, 0, -10, 0, 0, []⟩ := by
    intro heapBytes
    rw [Compute_of_exact ⟨5, 0, -10, 0, 0, []⟩ heapBytes (by decide) (by decide) (by decide)
      (by decide)]
    simp only [ceil_5_neg10, ceil_0_neg10]
    rw [if_neg (by decide), if_neg (by omega)]
    rfl
  refine ⟨hrun, ?_⟩
  intro h
  exact h 0 5 0 (-10) (by decide) ⟨5, 0, -10, 0, 0, []⟩ (hrun 0)

/-- C2 (amended): `Compute` reports no error for a negative maxResults, it divides by it. For
-2^53 < maxResults < 0, total and startAt of magnitude below 2^53, and a quotient ceiling that
is a length `make` accepts and the allocator can provide (0 ≤ ceil(total / maxResults),
8 * ceil(total / maxResults) ≤ maxAlloc and ≤ heapBytes), it completes normally with
PageCount = ceil(total / maxResults), Page = ceil(startAt / maxResults) and
Pages = [0, ..., PageCount - 1]. -/
theorem C2_Compute_divides_by_negative (p : Pagination) (heapBytes : Nat)
    (hM : p.MaxResults < 0) (hMlo : -2 ^ 53 < p.MaxResults)
    (hT : p.Total.natAbs < 2 ^ 53) (hS : p.StartAt.natAbs < 2 ^ 53)
    (h0 : 0 ≤ ⌈(p.Total : ℚ) / (p.MaxResults : ℚ)⌉)
    (hlen : 8 * ⌈(p.Total : ℚ) / (p.MaxResults : ℚ)⌉ ≤ maxAlloc)
    (hmem : 8 * ⌈(p.Total : ℚ) / (p.MaxResults : ℚ)⌉ ≤ (heapBytes : Int)) :
    p.Compute heapBytes = Run.ret { p with
      PageCount := ⌈(p.Total : ℚ) / (p.MaxResults : ℚ)⌉,
      Page := ⌈(p.StartAt : ℚ) / (p.MaxResults : ℚ)⌉,
      Pages := (List.range ⌈(p.Total : ℚ) / (p.MaxResults : ℚ)⌉.toNat).map Int.ofNat } := by
  rw [Compute_of_exact p heapBytes hT hS (by omega) (by omega)]
  rw [if_neg (by omega), if_neg (by omega)]

/-- C2 (amended), instance: total = 5, startAt = 0, maxResults = -10, no memory to spare. -/
theorem C2_Compute_divides_by_negative_witness :
    (⟨5, 0, -10, 0, 0, []⟩ : Pagination).Compute 0 = Run.ret ⟨5, 0, -10, 0, 0, []⟩ := by
  have h := C2_Compute_divides_by_negative ⟨5, 0, -10, 0, 0, []⟩ 0 (by decide) (by decide)
    (by decide) (by decide) (by rw [ceil_5_neg10]) (by rw [ceil_5_neg10]; decide)
    (by rw [ceil_5_neg10]; decide)
  rw [ceil_5_neg10, ceil_0_neg10] at h
  exact h

/-! ## C3: the pagination attached by `IssuesAssignedTo` -/

/-- C3 (as stated, refuted): the attached pagination is not computed from the arguments of
the call. For the call ("bob", 25, 0) and a response that decodes to total = 60, startAt = 0,
maxResults = 50, the result carries PageCount = 2, not ceil(60 / 25) = 3. -/
theorem C3_pagination_ignores_call_arguments :
    ((Jira.fixture (Except.ok [])).IssuesAssignedTo
        (Lib.fixture (Issue.zero, none) (⟨"", 0, 50, 60, [], none⟩, none) (none, none))
        "bob" 25 0).1
      = Run.ret (⟨"", 0, 50, 60, [], some ⟨60, 0, 50, 0, 2, [0, 1]⟩⟩, none)
    ∧ ⌈(((60 : ℤ)) : ℚ) / (((25 : ℤ)) : ℚ)⌉ = 3
    ∧ ¬ ∀ (lib : Lib) (j : Jira) (user : String) (maxResults startAt : Int)
        (contents : List UInt8) (decoded : IssueList),
        0 < maxResults → 0 ≤ startAt →
        (j.getRequest lib (j.IssuesAssignedTo_uri user maxResults startAt)).1
          = Except.ok contents →
        lib.jsonUnmarshalIssueList contents IssueList.zero = (decoded, none) →
        0 ≤ decoded.Total →
        8 * ⌈(decoded.Total : ℚ) / (maxResults : ℚ)⌉ ≤ (lib.heapBytes : Int) →
        ∃ (r : IssueList) (pg : Pagination),
          (j.IssuesAssignedTo lib user maxResults startAt).1 = Run.ret (r, none)
          ∧ r.Pagination = some pg
          ∧ pg.PageCount = ⌈(decoded.Total : ℚ) / (maxResults : ℚ)⌉
          ∧ pg.Page = ⌈(startAt : ℚ) / (maxResults : ℚ)⌉
          ∧ pg.Pages = (List.range pg.PageCount.toNat).map Int.ofNat := by
  refine ⟨by rfl, ceil_60_25, ?_⟩
  intro h
  obtain ⟨r, pg, hrun, hpg, hpc, -, -⟩ :=
    h (Lib.fixture (Issue.zero, none) (⟨"", 0, 50, 60, [], none⟩, none) (none, none))
      (Jira.fixture (Except.ok [])) "bob" 25 0 [] ⟨"", 0, 50, 60, [], none⟩
      (by decide) (by decide) rfl rfl (by decide) (by rw [ceil_60_25]; decide)
  have hval : ((Jira.fixture (Except.ok [])).IssuesAssignedTo
      (Lib.fixture (Issue.zero, none) (⟨"", 0, 50, 60, [], none⟩, none) (none, none))
      "bob" 25 0).1
      = Run.ret (⟨"", 0, 50, 60, [], some ⟨60, 0, 50, 0, 2, [0, 1]⟩⟩, none) := by rfl
  rw [hval] at hrun
  have hpair := Run.ret.inj hrun
  have hr : r = ⟨"", 0, 50, 60, [], some ⟨60, 0, 50, 0, 2, [0, 1]⟩⟩ := (Prod.mk.inj hpair).1.symm
  subst hr
  simp only [Option.some.injEq] at hpg
  subst hpg
  rw [ceil_60_25] at hpc
  exact absurd hpc (by decide)

/-- C3 (amended): when `http.NewRequest` and the transport succeed, the response body decodes
successfully, every decoded issue is non-nil with non-nil Fields, and the decoded (echoed)
values satisfy 0 ≤ Total < 2^53, 0 ≤ StartAt < 2^53, 0 < MaxResults < 2^53, with a page count
that `make` accepts and the allocator can provide (8 * ceil(Total / MaxResults) ≤ maxAlloc
and ≤ heapBytes), then `IssuesAssignedTo` returns without error an IssueList whose Pagination
is non-nil with PageCount = ceil(Total / MaxResults), Page = ceil(StartAt / MaxResults) and
Pages = [0, ..., PageCount - 1], all computed from the values echoed in the response body
and not from the arguments of the call. -/
theorem C3_pagination_from_echoed_values (lib : Lib) (j : Jira) (user : String)
    (maxResults startAt : Int) (contents : List UInt8) (decoded : IssueList)
    (hreq : (j.getRequest lib (j.IssuesAssignedTo_uri user maxResults startAt)).1
      = Except.ok contents)
    (hdec : lib.jsonUnmarshalIssueList contents IssueList.zero = (decoded, none))
    (hfields : ∀ i ∈ decoded.Issues, ∃ issue fields, i = some issue ∧ issue.Fields = some fields)
    (hT0 : 0 ≤ decoded.Total) (hT : decoded.Total < 2 ^ 53)
    (hS0 : 0 ≤ decoded.StartAt) (hS : decoded.StartAt < 2 ^ 53)
    (hM0 : 0 < decoded.MaxResults) (hM : decoded.MaxResults < 2 ^ 53)
    (hlen : 8 * ⌈(decoded.Total : ℚ) / (decoded.MaxResults : ℚ)⌉ ≤ maxAlloc)
    (hmem : 8 * ⌈(decoded.Total : ℚ) / (decoded.MaxResults : ℚ)⌉ ≤ (lib.heapBytes : Int)) :
    ∃ r : IssueList,
      (j.IssuesAssignedTo lib user maxResults startAt).1 = Run.ret (r, none)
      ∧ r.Pagination = some
          ⟨decoded.Total, decoded.StartAt, decoded.MaxResults,
            ⌈(decoded.StartAt : ℚ) / (decoded.MaxResults : ℚ)⌉,
            ⌈(decoded.Total : ℚ) / (decoded.MaxResults : ℚ)⌉,
            (List.range ⌈(decoded.Total : ℚ) / (decoded.MaxResults : ℚ)⌉.toNat).map Int.ofNat⟩ := by
  obtain ⟨stamped, hst, -, -⟩ := stampAll_of_fields decoded.Issues hfields
  rw [IssuesAssignedTo_decoded lib j user maxResults startAt contents decoded hreq hdec, hst]
  simp only
  rw [Compute_nonneg_exact ⟨decoded.Total, decoded.StartAt, decoded.MaxResults, 0, 0, []⟩
    lib.heapBytes hT0 hT hS0 hS hM0 hM hlen hmem]
  exact ⟨_, rfl, rfl⟩

/-- C3 (amended), instance: the call ("bob", 25, 0) against a response that decodes to
total = 60, startAt = 0, maxResults = 25 yields page 0, 3 pages, Pages = [0, 1, 2]. -/
theorem C3_pagination_from_echoed_values_witness :
    ∃ r : IssueList,
      ((Jira.fixture (Except.ok [])).IssuesAssignedTo
        (Lib.fixture (Issue.zero, none) (⟨"", 0, 25, 60, [], none⟩, none) (none, none))
        "bob" 25 0).1 = Run.ret (r, none)
      ∧ r.Pagination = some ⟨60, 0, 25, 0, 3, [0, 1, 2]⟩ := by
  have h := C3_pagination_from_echoed_values
    (Lib.fixture (Issue.zero, none) (⟨"", 0, 25, 60, [], none⟩, none) (none, none))
    (Jira.fixture (Except.ok [])) "bob" 25 0 [] ⟨"", 0, 25, 60, [], none⟩ rfl rfl
    (by intro i hi; simp at hi) (by decide) (by decide) (by decide) (by decide) (by decide)
    (by decide) (by rw [ceil_60_25]; decide) (by rw [ceil_60_25]; decide)
  rw [ceil_60_25, ceil_0_25] at h
  exact h

/-! ## C4: decode failures -/

/-- C4: each JSON endpoint, taken by itself: whenever its request has been answered and JSON
decoding of the answer reports an error, the endpoint returns that error together with the
zero value of its result type, whatever the decoder had already written into its target.
`Issue` returns the zero Issue, `IssuesAssignedTo` the zero IssueList with nil Pagination,
`User` the nil user pointer. -/
theorem C4_decode_error_returns_zero_value (lib : Lib) (j : Jira) :
    (∀ (id : String) (contents : List UInt8) (err : Error),
        (j.getRequest lib (j.Issue_uri id)).1 = Except.ok contents →
        (lib.jsonUnmarshalIssue contents Issue.zero).2 = some err →
        (j.Issue lib id).1 = (Issue.zero, some err))
    ∧ (∀ (user : String) (maxResults startAt : Int) (contents : List UInt8) (err : Error),
        (j.getRequest lib (j.IssuesAssignedTo_uri user maxResults startAt)).1
          = Except.ok contents →
        (lib.jsonUnmarshalIssueList contents IssueList.zero).2 = some err →
        (j.IssuesAssignedTo lib user maxResults startAt).1 = Run.ret (IssueList.zero, some err))
    ∧ (∀ (username : String) (contents : List UInt8) (err : Error),
        (j.getRequest lib (j.User_uri username)).1 = Except.ok contents →
        (lib.jsonUnmarshalUser contents (some User.zero)).2 = some err →
        (j.User lib username).1 = (none, some err)) := by
  refine ⟨?_, ?_, ?_⟩
  · intro id contents err hreq herr
    unfold Jira.Issue
    rcases hg : j.getRequest lib (j.Issue_uri id) with ⟨res, sent⟩
    rw [hg] at hreq
    simp only at hreq
    subst hreq
    rcases hp : lib.jsonUnmarshalIssue contents Issue.zero with ⟨v, e⟩
    rw [hp] at herr
    simp only at herr
    subst herr
    simp only [hp]
  · intro user maxResults startAt contents err hreq herr
    unfold Jira.IssuesAssignedTo
    rcases hg : j.getRequest lib (j.IssuesAssignedTo_uri user maxResults startAt) with ⟨res, sent⟩
    rw [hg] at hreq
    simp only at hreq
    subst hreq
    rcases hp : lib.jsonUnmarshalIssueList contents IssueList.zero with ⟨v, e⟩
    rw [hp] at herr
    simp only at herr
    subst herr
    simp only [hp]
  · intro username contents err hreq herr
    unfold Jira.User
    rcases hg : j.getRequest lib (j.User_uri username) with ⟨res, sent⟩
    rw [hg] at hreq
    simp only at hreq
    subst hreq
    rcases hp : lib.jsonUnmarshalUser contents (some User.zero) with ⟨v, e⟩
    rw [hp] at herr
    simp only at herr
    subst herr
    simp only [hp]

/-- C4, instance: decoders that fail after having filled in part of their targets. -/
theorem C4_decode_error_returns_zero_value_witness :
    ((Jira.fixture (Except.ok [123])).Issue
        (Lib.fixture (⟨"10001", "PRJ-1", "", "", none, Time.zero⟩, some ⟨"unexpected end of JSON input"⟩)
          (⟨"", 0, 25, 60, [], none⟩, some ⟨"cannot unmarshal string into Go value of type int"⟩)
          (some ⟨"", "bob", "", "", false, "", [], ""⟩, some ⟨"cannot unmarshal number"⟩)) "PRJ-1").1
      = (Issue.zero, some ⟨"unexpected end of JSON input"⟩)
    ∧ ((Jira.fixture (Except.ok [123])).IssuesAssignedTo
        (Lib.fixture (⟨"10001", "PRJ-1", "", "", none, Time.zero⟩, some ⟨"unexpected end of JSON input"⟩)
          (⟨"", 0, 25, 60, [], none⟩, some ⟨"cannot unmarshal string into Go value of type int"⟩)
          (some ⟨"", "bob", "", "", false, "", [], ""⟩, some ⟨"cannot unmarshal number"⟩))
        "bob" 25 0).1
      = Run.ret (IssueList.zero, some ⟨"cannot unmarshal string into Go value of type int"⟩)
    ∧ ((Jira.fixture (Except.ok [123])).User
        (Lib.fixture (⟨"10001", "PRJ-1", "", "", none, Time.zero⟩, some ⟨"unexpected end of JSON input"⟩)
          (⟨"", 0, 25, 60, [], none⟩, some ⟨"cannot unmarshal string into Go value of type int"⟩)
          (some ⟨"", "bob", "", "", false, "", [], ""⟩, some ⟨"cannot unmarshal number"⟩)) "bob").1
      = (none, some ⟨"cannot unmarshal number"⟩) :=
  ⟨(C4_decode_error_returns_zero_value _ _).1 "PRJ-1" [123] _ rfl rfl,
    (C4_decode_error_returns_zero_value _ _).2.1 "bob" 25 0 [123] _ rfl rfl,
    (C4_decode_error_returns_zero_value _ _).2.2 "bob" [123] _ rfl rfl⟩

/-! ## C5: usernames in URLs -/

/-- C5 (failing input): `User` and `SearchUser` insert the username into the query string as
it is. For the username a&b the `username` parameter of the URL they build reads back as a,
while the URLs of `IssuesAssignedTo` and `UserActivity`, which call `url.QueryEscape`, read
back in full. -/
theorem C5_User_inserts_username_unescaped :
    queryParam ((Jira.fixture (Except.ok [])).User_uri "a&b") "username" = some (utf8Bytes "a")
    ∧ queryParam ((Jira.fixture (Except.ok [])).SearchUser_uri "a&b") "username"
        = some (utf8Bytes "a")
    ∧ utf8Bytes "a" ≠ utf8Bytes "a&b"
    ∧ queryParam ((Jira.fixture (Except.ok [])).IssuesAssignedTo_uri "a&b" 25 0) "jql"
        = some (utf8Bytes "assignee=\"a&b\"")
    ∧ queryParam ((Jira.fixture (Except.ok [])).UserActivity_uri "a&b") "streams"
        = some (utf8Bytes "user IS a&b") := by
  refine ⟨by rfl, by rfl, by decide, by rfl, by rfl⟩

/-! ## C6: the request posted by `AddComment` -/

/-- C6 (as stated, refuted): not every comment comes back unchanged, and not every issue key
leads to a request. For the comment consisting of the single byte 0xFF, which is not UTF-8,
`json.Marshal` writes the escape of U+FFFD: the one request posted has the body
{"body":"\ufffd"}, whose member decodes to the bytes EF BF BD, not to FF. For the issue key
PRJ, line feed, 1, `http.NewRequest` rejects the URL and `AddComment` returns its error
without any request. -/
theorem C6_comment_or_key_not_carried :
    ((Jira.fixture (Except.ok [])).AddComment
        (Lib.fixture (Issue.zero, none) (IssueList.zero, none) (none, none))
        ⟨"10001", "PRJ-1", "", "", none, Time.zero⟩ [255]).2
      = [⟨"POST", "http://jira.example/rest/api/2/issue/PRJ-1/comment",
          some (utf8Bytes "\x7b\"body\":\"\\ufffd\"\x7d"),
          [("Content-Type", "application/json")], some ("login", "secret")⟩]
    ∧ decodeSingleMember (utf8Bytes "\x7b\"body\":\"\\ufffd\"\x7d")
        = some (utf8Bytes "body", [239, 191, 189])
    ∧ ([239, 191, 189] : List UInt8) ≠ [255]
    ∧ (Jira.fixture (Except.ok [])).AddComment
        { Lib.fixture (Issue.zero, none) (IssueList.zero, none) (none, none) with
          httpNewRequest := rejectControl }
        ⟨"10001", "PRJ\n1", "", "", none, Time.zero⟩ (utf8Bytes "hello")
      = (some ⟨"net/url: invalid control character in URL"⟩, [])
    ∧ ¬ ∀ (lib : Lib) (j : Jira) (issue : Issue) (comment : List UInt8),
        ∃ (req : Request) (body : List UInt8),
          (j.AddComment lib issue comment).2 = [req]
          ∧ req.Method = "POST"
          ∧ req.URL = j.BaseUrl ++ j.ApiPath ++ "/issue/" ++ issue.Key ++ "/comment"
          ∧ req.Header = [("Content-Type", "application/json")]
          ∧ req.Body = some body
          ∧ decodeSingleMember body = some (utf8Bytes "body", comment) := by
  have hsent : ((Jira.fixture (Except.ok [])).AddComment
        (Lib.fixture (Issue.zero, none) (IssueList.zero, none) (none, none))
        ⟨"10001", "PRJ-1", "", "", none, Time.zero⟩ [255]).2
      = [⟨"POST", "http://jira.example/rest/api/2/issue/PRJ-1/comment",
          some (utf8Bytes "\x7b\"body\":\"\\ufffd\"\x7d"),
          [("Content-Type", "application/json")], some ("login", "secret")⟩] := by rfl
  have hdec : decodeSingleMember (utf8Bytes "\x7b\"body\":\"\\ufffd\"\x7d")
        = some (utf8Bytes "body", [239, 191, 189]) := by rfl
  refine ⟨hsent, hdec, by decide, by rfl, ?_⟩
  intro h
  obtain ⟨req, body, htrace, -, -, -, hbody, hback⟩ :=
    h (Lib.fixture (Issue.zero, none) (IssueList.zero, none) (none, none))
      (Jira.fixture (Except.ok [])) ⟨"10001", "PRJ-1", "", "", none, Time.zero⟩ [255]
  rw [hsent] at htrace
  have hreq := (List.cons.inj htrace).1
  rw [← hreq] at hbody
  have hb : utf8Bytes "\x7b\"body\":\"\\ufffd\"\x7d" = body := Option.some.inj hbody
  rw [← hb, hdec] at hback
  have := (Prod.mk.inj (Option.some.inj hback)).2
  exact absurd this (by decide)

/-- C6 (amended): for every issue key whose URL `http.NewRequest` accepts and every comment
that is well-formed UTF-8, `AddComment` hands `Client.Do` exactly one request: a POST to
BaseUrl + ApiPath + "/issue/" + Key + "/comment" carrying the client's credentials, the single
header Content-Type: application/json, and as body the output of `json.Marshal`, a JSON object
with the one member "body" whose string value decodes to the comment unchanged; its result is
the error of that request, if any. -/
theorem C6_AddComment_posts_comment_body (lib : Lib) (j : Jira) (issue : Issue)
    (comment : List UInt8)
    (hurl : lib.httpNewRequest "POST"
      (j.BaseUrl ++ j.ApiPath ++ "/issue/" ++ issue.Key ++ "/comment") = none)
    (hutf : validUTF8 comment = true) :
    ∃ body : List UInt8,
      jsonMarshalStringMap [(utf8Bytes "body", comment)] = Except.ok body
      ∧ decodeSingleMember body = some (utf8Bytes "body", comment)
      ∧ (j.AddComment lib issue comment).2
          = [⟨"POST", j.BaseUrl ++ j.ApiPath ++ "/issue/" ++ issue.Key ++ "/comment",
              some body, [("Content-Type", "application/json")],
              some (j.Auth.Login, j.Auth.Password)⟩]
      ∧ (j.AddComment lib issue comment).1 =
          match j.Client ⟨"POST", j.BaseUrl ++ j.ApiPath ++ "/issue/" ++ issue.Key ++ "/comment",
              some body, [("Content-Type", "application/json")],
              some (j.Auth.Login, j.Auth.Password)⟩ with
          | Except.error err => some err
          | Except.ok _ => none := by
  refine ⟨_, rfl, decodeSingleMember_marshal (utf8Bytes "body") comment (by rfl) hutf, ?_, ?_⟩
  · simp only [Jira.AddComment, jsonMarshalStringMap, Jira.AddComment_uri,
      postJson_of_accepted lib j _ _ hurl]
    cases j.Client ⟨"POST", j.BaseUrl ++ j.ApiPath ++ "/issue/" ++ issue.Key ++ "/comment",
        some (123 :: (encodeMembers [(utf8Bytes "body", comment)] ++ [125])),
        [("Content-Type", "application/json")], some (j.Auth.Login, j.Auth.Password)⟩ <;> rfl
  · simp only [Jira.AddComment, jsonMarshalStringMap, Jira.AddComment_uri,
      postJson_of_accepted lib j _ _ hurl]
    cases j.Client ⟨"POST", j.BaseUrl ++ j.ApiPath ++ "/issue/" ++ issue.Key ++ "/comment",
        some (123 :: (encodeMembers [(utf8Bytes "body", comment)] ++ [125])),
        [("Content-Type", "application/json")], some (j.Auth.Login, j.Auth.Password)⟩ <;> rfl

/-- C6 (amended), instance: the comment  say "hi"  followed by a line feed, on the issue
PRJ-1. -/
theorem C6_AddComment_posts_comment_body_witness :
    ∃ body : List UInt8,
      jsonMarshalStringMap [(utf8Bytes "body", utf8Bytes "say \"hi\"\n")] = Except.ok body
      ∧ decodeSingleMember body = some (utf8Bytes "body", utf8Bytes "say \"hi\"\n")
      ∧ ((Jira.fixture (Except.ok [])).AddComment
          (Lib.fixture (Issue.zero, none) (IssueList.zero, none) (none, none))
          ⟨"10001", "PRJ-1", "", "", none, Time.zero⟩ (utf8Bytes "say \"hi\"\n")).2
          = [⟨"POST", "http://jira.example" ++ "/rest/api/2" ++ "/issue/" ++ "PRJ-1" ++ "/comment",
              some body, [("Content-Type", "application/json")], some ("login", "secret")⟩]
      ∧ ((Jira.fixture (Except.ok [])).AddComment
          (Lib.fixture (Issue.zero, none) (IssueList.zero, none) (none, none))
          ⟨"10001", "PRJ-1", "", "", none, Time.zero⟩ (utf8Bytes "say \"hi\"\n")).1 =
          match (Jira.fixture (Except.ok [])).Client
              ⟨"POST", "http://jira.example" ++ "/rest/api/2" ++ "/issue/" ++ "PRJ-1" ++ "/comment",
              some body, [("Content-Type", "application/json")], some ("login", "secret")⟩ with
          | Except.error err => some err
          | Except.ok _ => none :=
  C6_AddComment_posts_comment_body
    (Lib.fixture (Issue.zero, none) (IssueList.zero, none) (none, none))
    (Jira.fixture (Except.ok [])) ⟨"10001", "PRJ-1", "", "", none, Time.zero⟩
    (utf8Bytes "say \"hi\"\n") rfl (by rfl)

/-! ## C7: creation timestamps in `IssuesAssignedTo` -/

/-- C7 (as stated, refuted): a Created string outside the format
YYYY-MM-DDThh:mm:ss.sss±hhmm does not always leave the zero time. The string
2023-05-01T9:00:00.000+0200 has a one-digit hour, so it does not have the shape of the
format, yet `time.Parse` accepts it for the layout and `IssuesAssignedTo` stores
2023-05-01 09:00:00 at offset +02:00 in CreatedAt. The same holds for the fraction .+12 in
2023-05-01T10:00:00.+12+0200, which is read as 12 milliseconds. -/
theorem C7_CreatedAt_set_outside_format :
    hasStampShape "2023-05-01T9:00:00.000+0200" = false
    ∧ timeParse dateLayout "2023-05-01T9:00:00.000+0200" = Except.ok ⟨63818521200, 0, 7200⟩
    ∧ ((Jira.fixture (Except.ok [])).IssuesAssignedTo
        (Lib.fixture (Issue.zero, none)
          (⟨"", 0, 25, 1,
            [some ⟨"10001", "PRJ-1", "", "", some ⟨none, "", "", none, none, none,
                "2023-05-01T9:00:00.000+0200"⟩, Time.zero⟩], none⟩, none)
          (none, none)) "bob" 25 0).1
        = Run.ret (⟨"", 0, 25, 1,
            [some ⟨"10001", "PRJ-1", "", "", some ⟨none, "", "", none, none, none,
                "2023-05-01T9:00:00.000+0200"⟩, ⟨63818521200, 0, 7200⟩⟩],
            some ⟨1, 0, 25, 0, 1, [0]⟩⟩, none)
    ∧ (⟨63818521200, 0, 7200⟩ : Time) ≠ Time.zero
    ∧ hasStampShape "2023-05-01T10:00:00.+12+0200" = false
    ∧ timeParse dateLayout "2023-05-01T10:00:00.+12+0200"
        = Except.ok ⟨63818524800, 12000000, 7200⟩
    ∧ ¬ ∀ (lib : Lib) (j : Jira) (user : String) (maxResults startAt : Int)
        (contents : List UInt8) (decoded r : IssueList) (k : Nat) (issue : Issue)
        (fields : IssueFields),
        (j.getRequest lib (j.IssuesAssignedTo_uri user maxResults startAt)).1
          = Except.ok contents →
        lib.jsonUnmarshalIssueList contents IssueList.zero = (decoded, none) →
        (j.IssuesAssignedTo lib user maxResults startAt).1 = Run.ret (r, none) →
        decoded.Issues[k]? = some (some issue) → issue.Fields = some fields →
        hasStampShape fields.Created = false →
        r.Issues[k]? = some (some { issue with CreatedAt := Time.zero }) := by
  have hrun : ((Jira.fixture (Except.ok [])).IssuesAssignedTo
        (Lib.fixture (Issue.zero, none)
          (⟨"", 0, 25, 1,
            [some ⟨"10001", "PRJ-1", "", "", some ⟨none, "", "", none, none, none,
                "2023-05-01T9:00:00.000+0200"⟩, Time.zero⟩], none⟩, none)
          (none, none)) "bob" 25 0).1
        = Run.ret (⟨"", 0, 25, 1,
            [some ⟨"10001", "PRJ-1", "", "", some ⟨none, "", "", none, none, none,
                "2023-05-01T9:00:00.000+0200"⟩, ⟨63818521200, 0, 7200⟩⟩],
            some ⟨1, 0, 25, 0, 1, [0]⟩⟩, none) := by rfl
  refine ⟨by rfl, by rfl, hrun, by decide, by rfl, by rfl, ?_⟩
  intro h
  have hk := h
    (Lib.fixture (Issue.zero, none)
      (⟨"", 0, 25, 1,
        [some ⟨"10001", "PRJ-1", "", "", some ⟨none, "", "", none, none, none,
            "2023-05-01T9:00:00.000+0200"⟩, Time.zero⟩], none⟩, none)
      (none, none))
    (Jira.fixture (Except.ok [])) "bob" 25 0 [] _ _ 0 _ _ rfl rfl hrun rfl rfl (by rfl)
  exact absurd hk (by decide)

/-- C7 (amended): when the response decodes successfully, every decoded issue is non-nil with
non-nil Fields and `Compute` completes on the echoed values, `IssuesAssignedTo` returns
without error a list of the same length in which each issue is the decoded one with CreatedAt
set as follows. If Fields.Created is the text YYYY-MM-DDThh:mm:ss.sss±hhmm of a timestamp
whose fields are a date of the calendar, a time of day and a zone offset, CreatedAt is the
instant and the offset that timestamp denotes. In general CreatedAt is the time that
`time.Parse(dateLayout, Fields.Created)` returns when it accepts the string, and the zero
time when it rejects it; a rejected string raises no error and touches no other issue. -/
theorem C7_CreatedAt_parsed_or_zero (lib : Lib) (j : Jira) (user : String)
    (maxResults startAt : Int) (contents : List UInt8) (decoded : IssueList)
    (computed : Pagination)
    (hreq : (j.getRequest lib (j.IssuesAssignedTo_uri user maxResults startAt)).1
      = Except.ok contents)
    (hdec : lib.jsonUnmarshalIssueList contents IssueList.zero = (decoded, none))
    (hfields : ∀ i ∈ decoded.Issues, ∃ issue fields, i = some issue ∧ issue.Fields = some fields)
    (hcomp : (⟨decoded.Total, decoded.StartAt, decoded.MaxResults, 0, 0, []⟩ : Pagination).Compute
      lib.heapBytes = Run.ret computed) :
    ∃ r : IssueList,
      (j.IssuesAssignedTo lib user maxResults startAt).1 = Run.ret (r, none)
      ∧ r.Issues.length = decoded.Issues.length
      ∧ ∀ (k : Nat) (issue : Issue) (fields : IssueFields),
          decoded.Issues[k]? = some (some issue) → issue.Fields = some fields →
          (∀ s : Stamp, s.valid → fields.Created = s.render →
              r.Issues[k]? = some (some { issue with CreatedAt := s.time }))
          ∧ (∀ t, timeParse dateLayout fields.Created = Except.ok t →
              r.Issues[k]? = some (some { issue with CreatedAt := t }))
          ∧ (∀ e, timeParse dateLayout fields.Created = Except.error e →
              r.Issues[k]? = some (some { issue with CreatedAt := Time.zero })) := by
  obtain ⟨stamped, hst, hlen, hget⟩ := stampAll_of_fields decoded.Issues hfields
  rw [IssuesAssignedTo_decoded lib j user maxResults startAt contents decoded hreq hdec, hst]
  simp only
  rw [hcomp]
  refine ⟨_, rfl, hlen, ?_⟩
  intro k issue fields hk hf
  have h := hget k issue fields hk hf
  refine ⟨?_, ?_, ?_⟩
  · intro s hs hc
    rw [h, hc]
    simp only [parseIgnoringError, timeParse_render s hs]
  · intro t ht
    rw [h]
    simp only [parseIgnoringError, ht]
  · intro e he
    rw [h]
    simp only [parseIgnoringError, he]

/-- C7 (amended), instance: two issues, the first created at 2023-05-01T10:00:00.000+0200,
the second with a Created string that `time.Parse` rejects. -/
theorem C7_CreatedAt_parsed_or_zero_witness :
    ∃ r : IssueList,
      ((Jira.fixture (Except.ok [])).IssuesAssignedTo
        (Lib.fixture (Issue.zero, none)
          (⟨"", 0, 25, 2,
            [some ⟨"1", "PRJ-1", "", "", some ⟨none, "", "", none, none, none,
                "2023-05-01T10:00:00.000+0200"⟩, Time.zero⟩,
             some ⟨"2", "PRJ-2", "", "", some ⟨none, "", "", none, none, none,
                "yesterday"⟩, Time.zero⟩], none⟩, none)
          (none, none)) "bob" 25 0).1 = Run.ret (r, none)
      ∧ r.Issues[0]? = some (some ⟨"1", "PRJ-1", "", "", some ⟨none, "", "", none, none, none,
                "2023-05-01T10:00:00.000+0200"⟩, ⟨63818524800, 0, 7200⟩⟩)
      ∧ r.Issues[1]? = some (some ⟨"2", "PRJ-2", "", "", some ⟨none, "", "", none, none, none,
                "yesterday"⟩, Time.zero⟩) := by
  obtain ⟨r, hr, -, hk⟩ := C7_CreatedAt_parsed_or_zero
    (Lib.fixture (Issue.zero, none)
      (⟨"", 0, 25, 2,
        [some ⟨"1", "PRJ-1", "", "", some ⟨none, "", "", none, none, none,
            "2023-05-01T10:00:00.000+0200"⟩, Time.zero⟩,
         some ⟨"2", "PRJ-2", "", "", some ⟨none, "", "", none, none, none,
            "yesterday"⟩, Time.zero⟩], none⟩, none)
      (none, none))
    (Jira.fixture (Except.ok [])) "bob" 25 0 [] _ ⟨2, 0, 25, 0, 1, [0]⟩ rfl rfl
    (by
      intro i hi
      simp only [List.mem_cons, List.mem_singleton, List.not_mem_nil, or_false] at hi
      rcases hi with rfl | rfl
      · exact ⟨_, _, rfl, rfl⟩
      · exact ⟨_, _, rfl, rfl⟩)
    (by rfl)
  refine ⟨r, hr, ?_, ?_⟩
  · exact (hk 0 _ _ rfl rfl).1 ⟨2023, 5, 1, 10, 0, 0, 0, false, 2, 0⟩
      (by unfold Stamp.valid; decide) (by rfl)
  · exact (hk 1 _ _ rfl rfl).2.2 ⟨"parsing time yesterday as 2006-01-02T15:04:05.000-0700"⟩ (by rfl)

/-! ## C8: the creation timestamp of a single issue -/

/-- C8 (failing input): for a payload whose `fields.created` is 2023-05-01T10:00:00.000+0200
(decoded with CreatedAt untouched, the payload having no `createdAt` member), `Issue` returns
the zero time in CreatedAt although the string denotes 2023-05-01 10:00:00 at offset +02:00;
`IssuesAssignedTo` on the same decoded issue does set CreatedAt to that time. -/
theorem C8_Issue_leaves_CreatedAt_zero :
    parseDateLayout "2023-05-01T10:00:00.000+0200" = Except.ok ⟨63818524800, 0, 7200⟩
    ∧ ((Jira.fixture (Except.ok [])).Issue
        (Lib.fixture
          (⟨"10001", "PRJ-1", "", "", some ⟨none, "", "", none, none, none,
              "2023-05-01T10:00:00.000+0200"⟩, Time.zero⟩, none)
          (IssueList.zero, none) (none, none)) "PRJ-1").1
        = (⟨"10001", "PRJ-1", "", "", some ⟨none, "", "", none, none, none,
              "2023-05-01T10:00:00.000+0200"⟩, Time.zero⟩, none)
    ∧ ((Jira.fixture (Except.ok [])).IssuesAssignedTo
        (Lib.fixture (Issue.zero, none)
          (⟨"", 0, 25, 1,
            [some ⟨"10001", "PRJ-1", "", "", some ⟨none, "", "", none, none, none,
                "2023-05-01T10:00:00.000+0200"⟩, Time.zero⟩], none⟩, none)
          (none, none)) "bob" 25 0).1
        = Run.ret (⟨"", 0, 25, 1,
            [some ⟨"10001", "PRJ-1", "", "", some ⟨none, "", "", none, none, none,
                "2023-05-01T10:00:00.000+0200"⟩, ⟨63818524800, 0, 7200⟩⟩],
            some ⟨1, 0, 25, 0, 1, [0]⟩⟩, none) := by
  refine ⟨by rfl, by rfl, by rfl⟩

/-! ## C9: the resource requested by `SearchUser` -/

/-- C9 (failing input): `SearchUser` sends its GET request to the URL that `User` uses; for
the fixture client and the username bob its path is /rest/api/2/user, not the
/rest/api/2/user/search of its doc comment. -/
theorem C9_SearchUser_requests_user_resource :
    (∀ (lib : Lib) (j : Jira) (username : String) (startAt maxResults : Int) (a i : Bool),
        j.SearchUser lib username startAt maxResults a i =
          match lib.httpNewRequest "GET"
              (j.BaseUrl ++ j.ApiPath ++ user_uri ++ "?username=" ++ username) with
          | some err => ((none, some err), [])
          | none =>
            ((match j.Client ⟨"GET", j.BaseUrl ++ j.ApiPath ++ user_uri ++ "?username=" ++ username,
                none, [], some (j.Auth.Login, j.Auth.Password)⟩ with
              | Except.error err => (none, some err)
              | Except.ok contents => (some contents, none)),
              [⟨"GET", j.BaseUrl ++ j.ApiPath ++ user_uri ++ "?username=" ++ username,
                none, [], some (j.Auth.Login, j.Auth.Password)⟩]))
    ∧ (∀ (j : Jira) (username : String), j.SearchUser_uri username = j.User_uri username)
    ∧ urlPath ((Jira.fixture (Except.ok [])).SearchUser_uri "bob")
        = "http://jira.example/rest/api/2/user"
    ∧ urlPath ((Jira.fixture (Except.ok [])).SearchUser_uri "bob")
        ≠ "http://jira.example" ++ "/rest/api/2" ++ user_search_uri := by
  refine ⟨?_, fun j username => rfl, by rfl, by decide⟩
  intro lib j username startAt maxResults a i
  unfold Jira.SearchUser Jira.getRequest NewRequest Jira.SearchUser_uri
  cases hnr : lib.httpNewRequest "GET"
      (j.BaseUrl ++ j.ApiPath ++ user_uri ++ "?username=" ++ username) with
  | some err => rfl
  | none =>
    simp only [Jira.execRequest, Request.SetBasicAuth]
    cases j.Client ⟨"GET", j.BaseUrl ++ j.ApiPath ++ user_uri ++ "?username=" ++ username,
      none, [], some (j.Auth.Login, j.Auth.Password)⟩ <;> rfl

/-! ## C10: run-time faults of `IssuesAssignedTo` -/

/-- C10 (failing input): a successfully decoded response with an issue that has no `fields`
member, or with a null element in `issues`, makes `IssuesAssignedTo` panic with a nil
dereference instead of returning; with maxResults = -25 and total = 60 it panics in `make` on
the length -2; with a missing `maxResults` (decoded as 0) and total = 60 the float quotient is
+Inf, whose conversion to int is implementation-dependent. -/
theorem C10_IssuesAssignedTo_aborts :
    ((Jira.fixture (Except.ok [])).IssuesAssignedTo
        (Lib.fixture (Issue.zero, none)
          (⟨"", 0, 25, 1, [some ⟨"10001", "PRJ-1", "", "", none, Time.zero⟩], none⟩, none)
          (none, none)) "bob" 25 0).1 = Run.panic Fault.nilDeref
    ∧ ((Jira.fixture (Except.ok [])).IssuesAssignedTo
        (Lib.fixture (Issue.zero, none) (⟨"", 0, 25, 1, [none], none⟩, none) (none, none))
        "bob" 25 0).1 = Run.panic Fault.nilDeref
    ∧ ((Jira.fixture (Except.ok [])).IssuesAssignedTo
        (Lib.fixture (Issue.zero, none) (⟨"", 0, -25, 60, [], none⟩, none) (none, none))
        "bob" 25 0).1 = Run.panic Fault.makeSliceLen
    ∧ ((Jira.fixture (Except.ok [])).IssuesAssignedTo
        (Lib.fixture (Issue.zero, none) (⟨"", 0, 0, 60, [], none⟩, none) (none, none))
        "bob" 25 0).1 = Run.implDependent := by
  refine ⟨by rfl, by rfl, by rfl, by rfl⟩

end Gojira
